import Mathlib

/-!
Verification of the paintress-obsidian-sync synchronization engine.

The definitions below are a shallow embedding of the TypeScript sources:
* `src/src/sync-controller.ts` — the sync planner (`createSyncAction`),
  the applier (`applySyncAction`) and the pass driver (`sync`);
* `src/unnamed/part_000` (conflict-resolver.ts) — `ConflictResolver`;
* `src/unnamed/part_001` (fs.local.ts) — `LocalFileSystem.update` / `remove`.

Timestamps are JavaScript epoch-millisecond numbers, embedded as `Nat`
(`Date.now()` and file stat times are non-negative).  External npm libraries
(`minimatch`, `reconcile-text`) are embedded as abstract function parameters,
since their code is not part of this repository.
-/

set_option maxRecDepth 4000

namespace PaintressSync

/-- `FileMetadata` from fs.ts: one record per path per store snapshot. -/
structure FileMetadata where
  path : String
  size : Nat
  createdAt : Nat
  updatedAt : Nat
  deletedAt : Nat
  deleted : Bool
deriving DecidableEq, Repr

/-- The five action kinds of `SyncAction.action` in sync-controller.ts. -/
inductive ActionKind where
  | prune | remove | conflict | push | pull
deriving DecidableEq, Repr

/-- `SyncAction` from sync-controller.ts. -/
structure SyncAction where
  hostFile : Option FileMetadata
  remoteFile : Option FileMetadata
  action : ActionKind
deriving DecidableEq, Repr

/-- `SyncController.getFile`: `files.find((file) => file.path === path)`. -/
def getFile (files : List FileMetadata) (path : String) : Option FileMetadata :=
  files.find? (fun file => file.path == path)

/-- The deduplicating action map of `createSyncAction` (`objMap`), as an
insertion-ordered association list.  JS `Map` iteration follows insertion
order, which `setAct` preserves by appending fresh keys at the end. -/
abbrev ActMap := List (String × SyncAction)

/-- Key lookup in the action map. -/
def lookupA (m : ActMap) (k : String) : Option SyncAction :=
  match m with
  | [] => none
  | (k2, v) :: rest => if k2 = k then some v else lookupA rest k

/-- The `set` closure of `createSyncAction`: insert only if the key is absent
(first-writer-wins). -/
def setAct (m : ActMap) (k : String) (v : SyncAction) : ActMap :=
  if (lookupA m k).isSome then m else m ++ [(k, v)]

/-- Pass 1 body of `createSyncAction` (remote tombstones), lines 215-230. -/
def pass1Step (hostFiles : List FileMetadata) (m : ActMap) (d : FileMetadata) : ActMap :=
  match getFile hostFiles d.path with
  | some hostFile =>
    if hostFile.deleted then
      setAct m hostFile.path ⟨some hostFile, some d, .prune⟩
    else if hostFile.createdAt < d.deletedAt then
      setAct m hostFile.path ⟨some hostFile, some d, .remove⟩
    else
      setAct m hostFile.path ⟨some hostFile, some d, .push⟩
  | none => m

/-- Pass 2 body of `createSyncAction` (host tombstones), lines 235-253. -/
def pass2Step (remoteFiles : List FileMetadata) (m : ActMap) (d : FileMetadata) : ActMap :=
  match getFile remoteFiles d.path with
  | some remoteFile =>
    if remoteFile.deleted then m
    else if remoteFile.createdAt < d.deletedAt then
      setAct m remoteFile.path ⟨some d, some remoteFile, .remove⟩
    else
      setAct m d.path ⟨some d, some remoteFile, .pull⟩
  | none => setAct m d.path ⟨some d, none, .prune⟩

/-- Pass 3 body of `createSyncAction` (live host files), lines 257-268. -/
def pass3Step (remoteFiles : List FileMetadata) (w : Nat) (m : ActMap) (f : FileMetadata) : ActMap :=
  match getFile remoteFiles f.path with
  | none => setAct m f.path ⟨some f, none, .push⟩
  | some remoteFile =>
    if remoteFile.updatedAt < f.updatedAt then
      setAct m f.path ⟨some f, some remoteFile, .push⟩
    else if remoteFile.updatedAt > w then
      setAct m f.path ⟨some f, some remoteFile, .conflict⟩
    else m

/-- Pass 4 body of `createSyncAction` (live remote files), lines 272-284. -/
def pass4Step (hostFiles : List FileMetadata) (w : Nat) (m : ActMap) (rf : FileMetadata) : ActMap :=
  match getFile hostFiles rf.path with
  | none => setAct m rf.path ⟨none, some rf, .pull⟩
  | some hostFile =>
    if hostFile.updatedAt < rf.updatedAt then
      setAct m rf.path ⟨some hostFile, some rf, .pull⟩
    else if hostFile.updatedAt > w then
      setAct m rf.path ⟨some hostFile, some rf, .conflict⟩
    else m

/-- The full `objMap` produced by `createSyncAction`, with the watermark
`this.last_synced_at` passed explicitly as `w`. -/
def planMap (hostFiles remoteFiles : List FileMetadata) (w : Nat) : ActMap :=
  let m1 := (remoteFiles.filter (fun file => file.deleted)).foldl (pass1Step hostFiles) []
  let m2 := (hostFiles.filter (fun file => file.deleted)).foldl (pass2Step remoteFiles) m1
  let m3 := (hostFiles.filter (fun file => !file.deleted)).foldl (pass3Step remoteFiles w) m2
  (remoteFiles.filter (fun file => !file.deleted)).foldl (pass4Step hostFiles w) m3

/-- `createSyncAction`: `Array.from(objMap.values())`. -/
def createSyncAction (hostFiles remoteFiles : List FileMetadata) (w : Nat) : List SyncAction :=
  (planMap hostFiles remoteFiles w).map Prod.snd

/-! ## String helpers

JS `String.prototype.split` (single-character separators: `'.'`, `','`,
`'\n'` are the only ones the sources use) and `trim`, implemented by
structural recursion over the character list so that concrete instances
reduce inside the kernel (`String.splitOn` / `String.trim` are defined by
well-founded recursion and do not). -/

/-- Split a character list at every occurrence of `sep` (JS `split`
semantics: the empty string yields one empty group). -/
def splitCharAux (sep : Char) : List Char → List (List Char)
  | [] => [[]]
  | c :: rest =>
    match splitCharAux sep rest with
    | [] => [[]]
    | g :: gs => if c = sep then [] :: g :: gs else (c :: g) :: gs

/-- JS `s.split(sep)` for a one-character separator. -/
def splitChar (sep : Char) (s : String) : List String :=
  (splitCharAux sep s.data).map String.mk

/-- JS whitespace test for the characters `trim` strips (the sources only
ever trim glob patterns, where space, tab, CR and LF are the relevant
whitespace). -/
def isWhitespaceChar (c : Char) : Bool :=
  c = ' ' || c = '\t' || c = '\n' || c = '\r'

/-- JS `s.trim()`. -/
def trimChars (s : String) : String :=
  String.mk (((s.data.dropWhile isWhitespaceChar).reverse.dropWhile isWhitespaceChar).reverse)

/-! ## Conflict resolver (conflict-resolver.ts) -/

/-- The strategy union `ConflictResolutionStrategy` of settings-controller.ts
(the full value set is enumerated by the applier's switch and the README). -/
inductive ConflictResolutionStrategy where
  | resolve | ignore | latest | oldest | alwaysPull | alwaysPush
deriving DecidableEq, Repr

/-- One configured rule `{glob, strategy}`; `glob` is a comma-separated
pattern list before flattening. -/
structure ResolutionRule where
  glob : String
  strategy : ConflictResolutionStrategy
deriving DecidableEq, Repr

/-- Modelled from the spec: the slice of `SettingsController.settings` the
core consumes (settings-controller.ts is not among the sources); fields and
their uses are taken from §6 of the spec and the call sites in the sources. -/
structure Settings where
  resolution_strategies : List ResolutionRule
  fallback_conflict_resolution_strategy : ConflictResolutionStrategy
  exclude_globs : String
  last_synced_at : Nat
deriving DecidableEq, Repr

namespace ConflictResolver

/-- `getExtension`: `file.path.split('.').pop()` (JS `split` never returns an
empty array, and the caller replaces `undefined` by `''`). -/
def getExtension (file : FileMetadata) : String :=
  (splitChar '.' file.path).getLastD ""

/-- `isTextBasedFile`, with the allow-list exactly as written in the source
(including its duplicated entries). -/
def isTextBasedFile (file : FileMetadata) : Bool :=
  [ "md", "txt", "json", "yaml", "yml", "toml", "ini", "conf", "cfg",
    "config", "properties", "env", "ini", "conf", "cfg", "config",
    "properties", "env" ].contains (getExtension file)

/-- The flattening step of `getResolutionStrategy`: split each rule's glob on
commas and trim, preserving declared order. -/
def flattenRules (rules : List ResolutionRule) : List ResolutionRule :=
  rules.flatMap (fun obj =>
    (splitChar ',' obj.glob).map (fun g => { obj with glob := trimChars g }))

/-- `ConflictResolver.getResolutionStrategy`.  `mm path pattern` stands for
the external `minimatch(path, pattern)` call. -/
def getResolutionStrategy (mm : String → String → Bool) (settings : Settings)
    (hostFile _remoteFile : FileMetadata) : ConflictResolutionStrategy :=
  let matchedStrategy :=
    (flattenRules settings.resolution_strategies).find?
      (fun strategy => mm hostFile.path strategy.glob)
  let defaultStrategy :=
    match matchedStrategy with
    | some m => m.strategy
    | none => settings.fallback_conflict_resolution_strategy
  if isTextBasedFile hostFile then .resolve else defaultStrategy

/-- Return type of the external `reconcile` (reconcile-text): the merged
result, of which only `.text` is used. -/
structure ReconcileResult where
  text : String
deriving DecidableEq, Repr

/-- `ConflictResolver.resolve`.  `reconcile` stands for the external
`reconcile(oldText, baseText, newText)` call. -/
def resolve (reconcile : String → String → String → ReconcileResult)
    (hostFile remoteFile : FileMetadata) (hostFileContent remoteFileContent : String) : String :=
  let oldFile := if hostFile.updatedAt < remoteFile.updatedAt then hostFileContent else remoteFileContent
  let newFile := if hostFile.updatedAt < remoteFile.updatedAt then remoteFileContent else hostFileContent
  (reconcile oldFile oldFile newFile).text

end ConflictResolver

/-! ## File stores

Modelled from the spec: the File Store contract of §6 and the FileRecord /
tombstone model of §3.  The remote adapter (fs.remote.ts) is not among the
sources, and the host adapter's tombstone bookkeeping lives in
fs.local.file-history.ts, which is also absent; both stores are therefore
embedded as the §6 contract over an in-memory snapshot: a metadata list plus
a content table.  Content bytes are embedded as `String`s, and the
encrypt/decrypt collaborator (crypto.ts, also absent) — a round-tripping
codec around every content read/write — is embedded as the identity. -/

/-- A file store snapshot: metadata records plus per-path content. -/
structure Store where
  files : List FileMetadata
  contents : List (String × String)
deriving DecidableEq, Repr

namespace Store

/-- `getFileContent(path)`: `none` models the underlying read throwing. -/
def getFileContent (s : Store) (p : String) : Option String :=
  s.contents.lookup p

/-- The store's current recorded modification time for `p` (§6): the live
record's `updatedAt`, and `0` when the path holds no live content (for the
local adapter, tombstoned paths are gone from the vault, so they stat to 0). -/
def statMtime (s : Store) (p : String) : Nat :=
  match getFile s.files p with
  | some f => if f.deleted then 0 else f.updatedAt
  | none => 0

/-- Write content into the content table. -/
def setContent (contents : List (String × String)) (p c : String) : List (String × String) :=
  (p, c) :: contents.filter (fun kv => kv.1 ≠ p)

/-- Replace (or create) the record at `p` with a live record carrying
`updatedAt = nw`; a pre-existing record keeps its `createdAt`. -/
def upsertLive (files : List FileMetadata) (p : String) (sz nw : Nat) : List FileMetadata :=
  if files.any (fun g => g.path == p) then
    files.map (fun g => if g.path == p then { g with size := sz, updatedAt := nw, deleted := false } else g)
  else
    files ++ [⟨p, sz, nw, nw, 0, false⟩]

/-- Replace (or create) the record at `p` with a tombstone stamped `now`
(matching the host adapter's `createdAt = updatedAt = deletedAt` mapping of
recorded deletions). -/
def tombstonize (files : List FileMetadata) (p : String) (now : Nat) : List FileMetadata :=
  if files.any (fun g => g.path == p) then
    files.map (fun g => if g.path == p then ⟨p, 0, now, now, now, true⟩ else g)
  else
    files ++ [⟨p, 0, now, now, now, true⟩]

/-- §6 `update(path, content, previousUpdatedAt, newUpdatedAt)`: stale-write
check, then write. -/
def update (s : Store) (p c : String) (previousUpdatedAt newUpdatedAt : Nat) : Except String Store :=
  if s.statMtime p ≠ 0 ∧ s.statMtime p ≠ previousUpdatedAt then
    .error "StaleWriteError"
  else
    .ok { files := upsertLive s.files p c.length newUpdatedAt,
          contents := setContent s.contents p c }

/-- §6 `remove(path, previousUpdatedAt, now)`: stale-write check, then delete
the content and retain a tombstone. -/
def remove (s : Store) (p : String) (previousUpdatedAt now : Nat) : Except String Store :=
  if s.statMtime p ≠ 0 ∧ s.statMtime p ≠ previousUpdatedAt then
    .error "StaleWriteError"
  else
    .ok { files := tombstonize s.files p now,
          contents := s.contents.filter (fun kv => kv.1 ≠ p) }

/-- §6 `prune(path)`: delete only the tombstone bookkeeping, never live
content. -/
def prune (s : Store) (p : String) : Store :=
  { s with files := s.files.filter (fun g => !(g.path == p && g.deleted)) }

end Store

/-- The pair of stores a sync pass mutates. -/
structure SyncState where
  host : Store
  remote : Store
deriving DecidableEq, Repr

/-- One observable store invocation made by the applier, in call order. -/
inductive StoreOp where
  | hostPrune (path : String)
  | remotePrune (path : String)
  | hostRemove (path : String) (previousUpdatedAt now : Nat)
  | remoteRemove (path : String) (previousUpdatedAt now : Nat)
  | hostUpdate (path content : String) (previousUpdatedAt newUpdatedAt : Nat)
  | remoteUpdate (path content : String) (previousUpdatedAt newUpdatedAt : Nat)
  | hostRead (path : String)
  | remoteRead (path : String)
  | setWatermark (t : Nat)
deriving DecidableEq, Repr

/-- Result of running (part of) a pass: the final stores, the store calls
made in order, and the first uncaught error if one aborted execution. -/
structure ApplyResult where
  state : SyncState
  trace : List StoreOp
  error : Option String
deriving DecidableEq, Repr

/-- The collaborators the controller is constructed with: the external
`minimatch` and `reconcile-text` functions and the settings snapshot. -/
structure Config where
  mm : String → String → Bool
  reconcile : String → String → String → ConflictResolver.ReconcileResult
  settings : Settings

/-! ## Sync action applier (`applySyncAction`, sync-controller.ts lines 94-199)

Store calls are recorded in `trace` in invocation order; a call that throws
is still recorded (it was invoked), and aborts everything after it. -/

/-- The non-`conflict` arms of `applySyncAction`'s switch.  The `conflict`
arm lives in `applySyncAction` itself, whose re-dispatch only ever reaches
the arms below (so this split mirrors the one-step recursion of the source).
-/
def applyDirect (st : SyncState) (a : SyncAction) (now : Nat) : ApplyResult :=
  match a.action with
  | .prune =>
    match a.hostFile with
    | some hostFile => ⟨{ st with host := st.host.prune hostFile.path }, [.hostPrune hostFile.path], none⟩
    | none => ⟨st, [], none⟩
  | .remove =>
    -- Always do remote first
    let step1 : SyncState × List StoreOp × Option String :=
      match a.remoteFile with
      | some remoteFile =>
        match st.remote.remove remoteFile.path remoteFile.updatedAt now with
        | .ok remote2 => ({ st with remote := remote2 }, [.remoteRemove remoteFile.path remoteFile.updatedAt now], none)
        | .error e => (st, [.remoteRemove remoteFile.path remoteFile.updatedAt now], some e)
      | none => (st, [], none)
    match step1 with
    | (st1, t1, some e) => ⟨st1, t1, some e⟩
    | (st1, t1, none) =>
      match a.hostFile with
      | some hostFile =>
        match st1.host.remove hostFile.path hostFile.updatedAt now with
        | .ok host2 => ⟨{ st1 with host := host2 }, t1 ++ [.hostRemove hostFile.path hostFile.updatedAt now], none⟩
        | .error e => ⟨st1, t1 ++ [.hostRemove hostFile.path hostFile.updatedAt now], some e⟩
      | none => ⟨st1, t1, none⟩
  | .push =>
    match a.hostFile with
    | some hostFile =>
      match st.host.getFileContent hostFile.path with
      | none => ⟨st, [.hostRead hostFile.path], some "ReadError"⟩
      | some content =>
        let prev := match a.remoteFile with
          | some remoteFile => remoteFile.updatedAt
          | none => hostFile.updatedAt
        match st.remote.update hostFile.path content prev hostFile.updatedAt with
        | .ok remote2 =>
          ⟨{ st with remote := remote2 },
           [.hostRead hostFile.path, .remoteUpdate hostFile.path content prev hostFile.updatedAt], none⟩
        | .error e =>
          ⟨st, [.hostRead hostFile.path, .remoteUpdate hostFile.path content prev hostFile.updatedAt], some e⟩
    | none => ⟨st, [], none⟩
  | .pull =>
    match a.remoteFile with
    | some remoteFile =>
      match st.remote.getFileContent remoteFile.path with
      | none => ⟨st, [.remoteRead remoteFile.path], some "ReadError"⟩
      | some content =>
        let prev := match a.hostFile with
          | some hostFile => hostFile.updatedAt
          | none => remoteFile.updatedAt
        match st.host.update remoteFile.path content prev remoteFile.updatedAt with
        | .ok host2 =>
          ⟨{ st with host := host2 },
           [.remoteRead remoteFile.path, .hostUpdate remoteFile.path content prev remoteFile.updatedAt], none⟩
        | .error e =>
          ⟨st, [.remoteRead remoteFile.path, .hostUpdate remoteFile.path content prev remoteFile.updatedAt], some e⟩
    | none => ⟨st, [], none⟩
  | .conflict => ⟨st, [], none⟩  -- never reached through applySyncAction

/-- `applySyncAction`: `conflict` actions read both contents (handleConflict,
host first), consult the resolver, and re-dispatch; every other kind is
applied directly.  The `ResolutionError` default branch of the source switch
is unreachable here because the strategy union is exhaustive. -/
def applySyncAction (cfg : Config) (st : SyncState) (a : SyncAction) (now : Nat) : ApplyResult :=
  match a.action with
  | .conflict =>
    match a.hostFile, a.remoteFile with
    | some hostFile, some remoteFile =>
      -- handleConflict, lines 289-311
      match st.host.getFileContent hostFile.path with
      | none => ⟨st, [.hostRead hostFile.path], some "ReadError"⟩
      | some hostFileData =>
        match st.remote.getFileContent remoteFile.path with
        | none => ⟨st, [.hostRead hostFile.path, .remoteRead remoteFile.path], some "ReadError"⟩
        | some remoteFileData =>
          let reads : List StoreOp := [.hostRead hostFile.path, .remoteRead remoteFile.path]
          let redispatch := fun (kind : ActionKind) =>
            let res := applyDirect st ⟨a.hostFile, a.remoteFile, kind⟩ now
            (⟨res.state, reads ++ res.trace, res.error⟩ : ApplyResult)
          match ConflictResolver.getResolutionStrategy cfg.mm cfg.settings hostFile remoteFile with
          | .resolve =>
            let updatedData := ConflictResolver.resolve cfg.reconcile hostFile remoteFile hostFileData remoteFileData
            -- Always do remote first
            match st.remote.update remoteFile.path updatedData remoteFile.updatedAt now with
            | .error e =>
              ⟨st, reads ++ [.remoteUpdate remoteFile.path updatedData remoteFile.updatedAt now], some e⟩
            | .ok remote2 =>
              match st.host.update hostFile.path updatedData hostFile.updatedAt now with
              | .ok host2 =>
                ⟨⟨host2, remote2⟩,
                 reads ++ [.remoteUpdate remoteFile.path updatedData remoteFile.updatedAt now,
                           .hostUpdate hostFile.path updatedData hostFile.updatedAt now], none⟩
              | .error e =>
                ⟨{ st with remote := remote2 },
                 reads ++ [.remoteUpdate remoteFile.path updatedData remoteFile.updatedAt now,
                           .hostUpdate hostFile.path updatedData hostFile.updatedAt now], some e⟩
          | .ignore => ⟨st, reads, none⟩
          | .latest =>
            redispatch (if hostFile.updatedAt < remoteFile.updatedAt then .pull else .push)
          | .oldest =>
            redispatch (if hostFile.updatedAt < remoteFile.updatedAt then .push else .pull)
          | .alwaysPull => redispatch .pull
          | .alwaysPush => redispatch .push
    | _, _ => ⟨st, [], none⟩
  | _ => applyDirect st a now

/-- The action loop of `sync` (lines 55-57): sequential, first throw aborts
the rest of the pass. -/
def runActions (cfg : Config) (st : SyncState) (actions : List SyncAction) (now : Nat) : ApplyResult :=
  match actions with
  | [] => ⟨st, [], none⟩
  | a :: rest =>
    let r := applySyncAction cfg st a now
    match r.error with
    | some e => ⟨r.state, r.trace, some e⟩
    | none =>
      let r2 := runActions cfg r.state rest now
      ⟨r2.state, r.trace ++ r2.trace, r2.error⟩

/-- The exclusion-pattern splitting of `sync` (lines 38-40): split on
newlines, trim, split on commas, trim again (the second JS `flatMap`
returns strings, so it acts as a `map`). -/
def splitPatterns (excludeGlobs : String) : List String :=
  ((splitChar '\n' excludeGlobs).flatMap
      (fun pattern => splitChar ',' (trimChars pattern))).map
    (fun pattern => trimChars pattern)

/-- `SyncController.isFileExcluded` (lines 70-92): true iff some non-blank
pattern matches (invalid patterns are skipped, which the total `mm` models).
-/
def isFileExcluded (mm : String → String → Bool) (filePath : String)
    (excludePatterns : List String) : Bool :=
  excludePatterns.any (fun pattern => trimChars pattern ≠ "" && mm filePath pattern)

/-- Result of a whole pass: stores, trace, error, and the settings as
persisted at the end of the pass. -/
structure SyncResult where
  state : SyncState
  trace : List StoreOp
  error : Option String
  settings : Settings
deriving Repr

/-- The tail of `sync` (lines 55-60): on success of the action loop the
watermark write (`updateSettings({ last_synced_at: now })`) happens; a
throw surfaces with the settings untouched. -/
def finishSync (settings : Settings) (now : Nat) (r : ApplyResult) : SyncResult :=
  match r.error with
  | some e => ⟨r.state, r.trace, some e, settings⟩
  | none => ⟨r.state, r.trace ++ [.setWatermark now], none,
             { settings with last_synced_at := now }⟩

/-- `SyncController.sync` (lines 24-60), with `Date.now()` passed as `now`.
The watermark is read at the start (`|| 0` is the identity on `Nat`) and
persisted via `updateSettings` only after every action has been applied. -/
def sync (cfg : Config) (st : SyncState) (now : Nat) : SyncResult :=
  let lastSyncedAt := cfg.settings.last_synced_at
  let hostFiles := st.host.files
  let remoteFiles := st.remote.files
  let filteredRemoteFiles := remoteFiles.filter
    (fun file => !isFileExcluded cfg.mm file.path (splitPatterns cfg.settings.exclude_globs))
  let actions := createSyncAction hostFiles filteredRemoteFiles lastSyncedAt
  finishSync cfg.settings now (runActions cfg st actions now)

/-! ## Local adapter (fs.local.ts, `src/unnamed/part_001`)

`LocalFileSystem.update` / `remove` over the Obsidian vault.  The vault is
embedded as a path-indexed table of `{mtime, ctime, content}` entries
(folders are immaterial: `mkdirpInVault` only creates parent folders and
cannot fail the staleness check under study). -/

/-- One vault file as seen by `getFileStats` / `writeBinary`. -/
structure VaultEntry where
  mtime : Nat
  ctime : Nat
  content : String
deriving DecidableEq, Repr

/-- The vault: at most one entry per path. -/
abbrev Vault := List (String × VaultEntry)

namespace LocalFileSystem

/-- `getFileStats`: the entry's times, or `(0, 0)` when the path does not
resolve to a file. -/
def getFileStats (v : Vault) (path : String) : Nat × Nat :=
  match v.lookup path with
  | some entry => (entry.mtime, entry.ctime)
  | none => (0, 0)

/-- `writeFile`: `writeBinary` with explicit mtime/ctime. -/
def writeFile (v : Vault) (path : String) (content : String) (mtime ctime : Nat) : Vault :=
  (path, ⟨mtime, ctime, content⟩) :: v.filter (fun kv => kv.1 ≠ path)

/-- `LocalFileSystem.update` (part_001 lines 53-68): staleness check, then
write with `ctime || newUpdatedAt` (JS `||`: a 0 ctime falls back). -/
def update (v : Vault) (path content : String) (previousUpdatedAt newUpdatedAt : Nat) :
    Except String Vault :=
  let stats := getFileStats v path
  let mtime := stats.1
  let ctime := stats.2
  if mtime ≠ 0 ∧ mtime ≠ previousUpdatedAt then
    .error "File has been modified since last sync"
  else
    .ok (writeFile v path content newUpdatedAt (if ctime = 0 then newUpdatedAt else ctime))

/-- `LocalFileSystem.remove` (part_001 lines 70-84): same staleness check,
then trash the path (both trash variants delete it from the vault). -/
def remove (v : Vault) (path : String) (previousUpdatedAt : Nat) : Except String Vault :=
  let mtime := (getFileStats v path).1
  if mtime ≠ 0 ∧ mtime ≠ previousUpdatedAt then
    .error "File has been modified since last sync"
  else
    .ok (v.filter (fun kv => kv.1 ≠ path))

end LocalFileSystem

/-! ## Proof-support predicates -/

/-- §3 invariant: within one snapshot, at most one record per path. -/
def pathsNodup (files : List FileMetadata) : Prop :=
  (files.map (fun f => f.path)).Nodup

/-- A snapshot without tombstones. -/
def allLive (files : List FileMetadata) : Prop :=
  ∀ f ∈ files, f.deleted = false

/-- All records were last touched no later than `now`. -/
def stampedBy (files : List FileMetadata) (now : Nat) : Prop :=
  ∀ f ∈ files, f.updatedAt ≤ now

/-- Every live record's content is readable. -/
def contentsComplete (s : Store) : Prop :=
  ∀ f ∈ s.files, f.deleted = false → (s.getFileContent f.path).isSome

/-- A path over which the two stores agree: either absent on both sides, or
live on both sides with the same `updatedAt`. -/
def settled (S : SyncState) (q : String) : Prop :=
  match getFile S.host.files q, getFile S.remote.files q with
  | none, none => True
  | some h, some r => h.deleted = false ∧ r.deleted = false ∧ h.updatedAt = r.updatedAt
  | _, _ => False

/-- All invariants the idempotence argument tracks across a pass: per-store
path uniqueness (§3), no tombstones, no timestamp beyond `now`, and readable
content for every live record. -/
def stateOK (S : SyncState) (now : Nat) : Prop :=
  pathsNodup S.host.files ∧ pathsNodup S.remote.files ∧
  allLive S.host.files ∧ allLive S.remote.files ∧
  stampedBy S.host.files now ∧ stampedBy S.remote.files now ∧
  contentsComplete S.host ∧ contentsComplete S.remote

/-- A planner map entry as produced on tombstone-free, conflict-free input:
a `push` whose `hostFile` is the store's record at the key (with
`remoteFile` the remote lookup), or the symmetric `pull`. -/
def goodKV (S : SyncState) (kv : String × SyncAction) : Prop :=
  (∃ h, kv.2.hostFile = some h ∧ getFile S.host.files kv.1 = some h ∧
     kv.2.remoteFile = getFile S.remote.files kv.1 ∧ kv.2.action = .push)
  ∨ (∃ r, kv.2.remoteFile = some r ∧ getFile S.remote.files kv.1 = some r ∧
     kv.2.hostFile = getFile S.host.files kv.1 ∧ kv.2.action = .pull)

/-- Is this store call a prune of the remote store? -/
def StoreOp.isRemotePrune : StoreOp → Bool
  | .remotePrune _ => true
  | _ => false

/-- Is this store call a prune of the host store? -/
def StoreOp.isHostPrune : StoreOp → Bool
  | .hostPrune _ => true
  | _ => false

/-- Is this store call a deletion on the remote store? -/
def StoreOp.isRemoteRemove : StoreOp → Bool
  | .remoteRemove _ _ _ => true
  | _ => false

/-- Is this store call a deletion on the host store? -/
def StoreOp.isHostRemove : StoreOp → Bool
  | .hostRemove _ _ _ => true
  | _ => false

/-- Is this a watermark write? -/
def StoreOp.isSetWatermark : StoreOp → Bool
  | .setWatermark _ => true
  | _ => false

/-- Does this action refer to path `p` (through either of its records)?
"`plan` emits no action for path `p`" is rendered as: no emitted action
mentions `p`. -/
def SyncAction.mentionsPath (a : SyncAction) (p : String) : Bool :=
  a.hostFile.any (fun f => f.path == p) || a.remoteFile.any (fun f => f.path == p)

/-- A map whose keys are pairwise distinct (holds for `planMap`). -/
def keysNodup (m : ActMap) : Prop :=
  (m.map Prod.fst).Nodup

/-- `step` performs an insert-if-absent whose data depends only on the
element, not on the accumulated map (true of all four planner passes). -/
def SetLike {α : Type} (step : ActMap → α → ActMap) (c : α → Bool) (k : α → String)
    (v : α → SyncAction) : Prop :=
  ∀ m x, step m x = if c x then setAct m (k x) (v x) else m

/-- Does the pass-1 body insert for this remote tombstone? -/
def pass1Fires (hostFiles : List FileMetadata) (d : FileMetadata) : Bool :=
  (getFile hostFiles d.path).isSome

/-- The key the pass-1 body inserts at. -/
def pass1Key (hostFiles : List FileMetadata) (d : FileMetadata) : String :=
  match getFile hostFiles d.path with
  | some hostFile => hostFile.path
  | none => d.path

/-- The action the pass-1 body inserts. -/
def pass1Val (hostFiles : List FileMetadata) (d : FileMetadata) : SyncAction :=
  match getFile hostFiles d.path with
  | some hostFile =>
    if hostFile.deleted then ⟨some hostFile, some d, .prune⟩
    else if hostFile.createdAt < d.deletedAt then ⟨some hostFile, some d, .remove⟩
    else ⟨some hostFile, some d, .push⟩
  | none => ⟨none, some d, .prune⟩

/-- Does the pass-2 body insert for this host tombstone? -/
def pass2Fires (remoteFiles : List FileMetadata) (d : FileMetadata) : Bool :=
  match getFile remoteFiles d.path with
  | some remoteFile => !remoteFile.deleted
  | none => true

/-- The key the pass-2 body inserts at. -/
def pass2Key (remoteFiles : List FileMetadata) (d : FileMetadata) : String :=
  match getFile remoteFiles d.path with
  | some remoteFile =>
    if remoteFile.deleted then d.path
    else if remoteFile.createdAt < d.deletedAt then remoteFile.path
    else d.path
  | none => d.path

/-- The action the pass-2 body inserts. -/
def pass2Val (remoteFiles : List FileMetadata) (d : FileMetadata) : SyncAction :=
  match getFile remoteFiles d.path with
  | some remoteFile =>
    if remoteFile.deleted then ⟨some d, some remoteFile, .prune⟩
    else if remoteFile.createdAt < d.deletedAt then ⟨some d, some remoteFile, .remove⟩
    else ⟨some d, some remoteFile, .pull⟩
  | none => ⟨some d, none, .prune⟩

/-- Does the pass-3 body insert for this live host file? -/
def pass3Fires (remoteFiles : List FileMetadata) (w : Nat) (f : FileMetadata) : Bool :=
  match getFile remoteFiles f.path with
  | none => true
  | some remoteFile => remoteFile.updatedAt < f.updatedAt || remoteFile.updatedAt > w

/-- The action the pass-3 body inserts. -/
def pass3Val (remoteFiles : List FileMetadata) (f : FileMetadata) : SyncAction :=
  match getFile remoteFiles f.path with
  | none => ⟨some f, none, .push⟩
  | some remoteFile =>
    if remoteFile.updatedAt < f.updatedAt then ⟨some f, some remoteFile, .push⟩
    else ⟨some f, some remoteFile, .conflict⟩

/-- Does the pass-4 body insert for this live remote file? -/
def pass4Fires (hostFiles : List FileMetadata) (w : Nat) (rf : FileMetadata) : Bool :=
  match getFile hostFiles rf.path with
  | none => true
  | some hostFile => hostFile.updatedAt < rf.updatedAt || hostFile.updatedAt > w

/-- The action the pass-4 body inserts. -/
def pass4Val (hostFiles : List FileMetadata) (rf : FileMetadata) : SyncAction :=
  match getFile hostFiles rf.path with
  | none => ⟨none, some rf, .pull⟩
  | some hostFile =>
    if hostFile.updatedAt < rf.updatedAt then ⟨some hostFile, some rf, .pull⟩
    else ⟨some hostFile, some rf, .conflict⟩

/-! ## Lookup and map lemmas -/

lemma getFile_path {files : List FileMetadata} {p : String} {f : FileMetadata}
    (h : getFile files p = some f) : f.path = p := by
  have := List.find?_some h
  simpa using this

lemma getFile_mem {files : List FileMetadata} {p : String} {f : FileMetadata}
    (h : getFile files p = some f) : f ∈ files :=
  List.mem_of_find?_eq_some h

lemma getFile_eq_none_iff {files : List FileMetadata} {p : String} :
    getFile files p = none ↔ ∀ f ∈ files, f.path ≠ p := by
  unfold getFile
  rw [List.find?_eq_none]
  constructor
  · intro h f hf
    have := h f hf
    simpa using this
  · intro h f hf
    simpa using h f hf

lemma getFile_of_mem_nodup {files : List FileMetadata} {f : FileMetadata}
    (hnd : pathsNodup files) (hmem : f ∈ files) : getFile files f.path = some f := by
  induction files with
  | nil => cases hmem
  | cons g rest ih =>
    have hcons : g.path ∉ rest.map (fun f => f.path) ∧ pathsNodup rest := by
      have := hnd
      unfold pathsNodup at this ⊢
      rw [List.map_cons, List.nodup_cons] at this
      exact this
    rcases List.mem_cons.mp hmem with h | h
    · subst h
      simp [getFile, List.find?]
    · have hne : g.path ≠ f.path := by
        intro heq
        exact hcons.1 (heq ▸ List.mem_map.mpr ⟨f, h, rfl⟩)
      have := ih hcons.2 h
      simp only [getFile, List.find?] at this ⊢
      have hbeq : (g.path == f.path) = false := by
        simpa using hne
      rw [hbeq]
      exact this

lemma lookupA_append_of_some {m1 m2 : ActMap} {k : String} {v : SyncAction}
    (h : lookupA m1 k = some v) : lookupA (m1 ++ m2) k = some v := by
  induction m1 with
  | nil => simp [lookupA] at h
  | cons kv rest ih =>
    simp only [lookupA, List.cons_append] at h ⊢
    by_cases hk : kv.1 = k
    · simpa [hk] using h
    · rw [if_neg hk] at h ⊢
      exact ih h

lemma lookupA_append_of_none {m1 m2 : ActMap} {k : String}
    (h : lookupA m1 k = none) : lookupA (m1 ++ m2) k = lookupA m2 k := by
  induction m1 with
  | nil => simp
  | cons kv rest ih =>
    simp only [lookupA, List.cons_append] at h ⊢
    by_cases hk : kv.1 = k
    · simp [hk] at h
    · rw [if_neg hk] at h ⊢
      exact ih h

lemma lookupA_setAct_of_some {m : ActMap} {q k : String} {a v : SyncAction}
    (h : lookupA m q = some a) : lookupA (setAct m k v) q = some a := by
  unfold setAct
  split
  · exact h
  · exact lookupA_append_of_some h

lemma lookupA_setAct_self {m : ActMap} {k : String} {v : SyncAction}
    (h : lookupA m k = none) : lookupA (setAct m k v) k = some v := by
  unfold setAct
  rw [if_neg (by simp [h])]
  rw [lookupA_append_of_none h]
  simp [lookupA]

lemma lookupA_setAct_ne {m : ActMap} {q k : String} {v : SyncAction}
    (h : q ≠ k) : lookupA (setAct m k v) q = lookupA m q := by
  unfold setAct
  split
  · rfl
  · cases hq : lookupA m q with
    | some a => exact lookupA_append_of_some hq
    | none =>
      rw [lookupA_append_of_none hq]
      simp [lookupA, h.symm]

lemma lookupA_isSome_setAct {m : ActMap} {q k : String} {v : SyncAction}
    (h : (lookupA m q).isSome) : (lookupA (setAct m k v) q).isSome := by
  cases hq : lookupA m q with
  | none => rw [hq] at h; simp at h
  | some a => rw [lookupA_setAct_of_some hq]; rfl

lemma mem_setAct {m : ActMap} {k : String} {v : SyncAction} {kv : String × SyncAction}
    (h : kv ∈ setAct m k v) : kv ∈ m ∨ kv = (k, v) := by
  unfold setAct at h
  split at h
  · exact Or.inl h
  · rcases List.mem_append.mp h with h2 | h2
    · exact Or.inl h2
    · simp at h2
      exact Or.inr h2

lemma lookupA_mem {m : ActMap} {q : String} {a : SyncAction}
    (h : lookupA m q = some a) : (q, a) ∈ m := by
  induction m with
  | nil => simp [lookupA] at h
  | cons kv rest ih =>
    simp only [lookupA] at h
    by_cases hk : kv.1 = q
    · rw [if_pos hk] at h
      have : kv = (q, a) := by
        cases kv
        simp at hk h
        simp [hk, h]
      rw [← this]
      exact List.mem_cons_self _ _
    · rw [if_neg hk] at h
      exact List.mem_cons_of_mem _ (ih h)

lemma mem_values {m : ActMap} {a : SyncAction} :
    a ∈ m.map Prod.snd ↔ ∃ q, (q, a) ∈ m := by
  constructor
  · intro h
    rcases List.mem_map.mp h with ⟨⟨q, b⟩, hmem, hb⟩
    simp only at hb
    subst hb
    exact ⟨q, hmem⟩
  · rintro ⟨q, hmem⟩
    exact List.mem_map.mpr ⟨(q, a), hmem, rfl⟩

lemma lookupA_eq_none_iff_keys {m : ActMap} {k : String} :
    lookupA m k = none ↔ k ∉ m.map Prod.fst := by
  induction m with
  | nil => simp [lookupA]
  | cons kv rest ih =>
    simp only [lookupA, List.map_cons, List.mem_cons]
    by_cases hk : kv.1 = k
    · simp [hk]
    · rw [if_neg hk]
      rw [ih]
      constructor
      · intro h
        intro hor
        rcases hor with h2 | h2
        · exact hk h2.symm
        · exact h h2
      · intro h h2
        exact h (Or.inr h2)

lemma lookupA_setAct_isSome_self {m : ActMap} {k : String} {v : SyncAction} :
    (lookupA (setAct m k v) k).isSome := by
  cases h : lookupA m k with
  | some a => rw [lookupA_setAct_of_some h]; rfl
  | none => rw [lookupA_setAct_self h]; rfl

lemma lookupA_setAct_inv {m : ActMap} {k q : String} {v a : SyncAction}
    (h : lookupA (setAct m k v) q = some a) :
    lookupA m q = some a ∨ (q = k ∧ a = v) := by
  unfold setAct at h
  split at h
  · exact Or.inl h
  · rename_i hnotsome
    by_cases hq : q = k
    · subst hq
      have hnone : lookupA m q = none := by
        cases hm : lookupA m q with
        | none => rfl
        | some b => rw [hm] at hnotsome; simp at hnotsome
      rw [lookupA_append_of_none hnone] at h
      simp [lookupA] at h
      exact Or.inr ⟨rfl, h.symm⟩
    · cases hm : lookupA m q with
      | some b =>
        rw [lookupA_append_of_some hm] at h
        exact Or.inl h
      | none =>
        rw [lookupA_append_of_none hm] at h
        simp only [lookupA] at h
        rw [if_neg (fun h2 => hq h2.symm)] at h
        cases h

lemma keysNodup_setAct {m : ActMap} {k : String} {v : SyncAction}
    (h : keysNodup m) : keysNodup (setAct m k v) := by
  unfold setAct
  split
  · exact h
  · rename_i hnotsome
    have hnone : lookupA m k = none := by
      cases hm : lookupA m k with
      | none => rfl
      | some b => rw [hm] at hnotsome; simp at hnotsome
    unfold keysNodup at h ⊢
    rw [List.map_append]
    simp only [List.map_cons, List.map_nil]
    rw [List.nodup_append]
    refine ⟨h, List.nodup_singleton _, ?_⟩
    intro x hx hx2
    simp at hx2
    subst hx2
    exact (lookupA_eq_none_iff_keys.mp hnone) hx

section SetLikeFold

variable {α : Type} {step : ActMap → α → ActMap} {c : α → Bool} {k : α → String}
variable {v : α → SyncAction}

lemma foldl_lookup_of_some (hstep : SetLike step c k v) {xs : List α} {m : ActMap}
    {q : String} {a : SyncAction}
    (h : lookupA m q = some a) : lookupA (xs.foldl step m) q = some a := by
  induction xs generalizing m with
  | nil => simpa using h
  | cons x rest ih =>
    simp only [List.foldl_cons]
    apply ih
    rw [hstep]
    split
    · exact lookupA_setAct_of_some h
    · exact h

lemma foldl_lookup_isSome (hstep : SetLike step c k v) (xs : List α) {m : ActMap}
    {q : String}
    (h : (lookupA m q).isSome) : (lookupA (xs.foldl step m) q).isSome := by
  cases hm : lookupA m q with
  | none => rw [hm] at h; simp at h
  | some a => rw [foldl_lookup_of_some hstep hm]; rfl

lemma foldl_lookup_none (hstep : SetLike step c k v) {xs : List α} {m : ActMap}
    {q : String}
    (h : ∀ x ∈ xs, c x = true → k x ≠ q) :
    lookupA (xs.foldl step m) q = lookupA m q := by
  induction xs generalizing m with
  | nil => simp
  | cons x rest ih =>
    simp only [List.foldl_cons]
    rw [ih (fun y hy => h y (List.mem_cons_of_mem _ hy))]
    rw [hstep]
    split
    · rename_i hc
      exact lookupA_setAct_ne (fun hq => h x (List.mem_cons_self _ _) hc hq.symm)
    · rfl

lemma foldl_lookup_sound (hstep : SetLike step c k v) {xs : List α} {m : ActMap}
    {q : String} {a : SyncAction}
    (h : lookupA (xs.foldl step m) q = some a) :
    lookupA m q = some a ∨ ∃ x ∈ xs, c x = true ∧ k x = q ∧ v x = a := by
  induction xs generalizing m with
  | nil => exact Or.inl (by simpa using h)
  | cons x rest ih =>
    simp only [List.foldl_cons] at h
    rcases ih h with h2 | h2
    · rw [hstep] at h2
      split at h2
      · rcases lookupA_setAct_inv h2 with h3 | h3
        · exact Or.inl h3
        · rename_i hc
          exact Or.inr ⟨x, List.mem_cons_self _ _, hc, h3.1.symm, h3.2.symm⟩
      · exact Or.inl h2
    · rcases h2 with ⟨y, hy, hcy, hky, hvy⟩
      exact Or.inr ⟨y, List.mem_cons_of_mem _ hy, hcy, hky, hvy⟩

lemma foldl_hasKey_of_fires (hstep : SetLike step c k v) {xs : List α} (m : ActMap)
    {x : α}
    (hx : x ∈ xs) (hc : c x = true) : (lookupA (xs.foldl step m) (k x)).isSome := by
  induction xs generalizing m with
  | nil => cases hx
  | cons y rest ih =>
    simp only [List.foldl_cons]
    rcases List.mem_cons.mp hx with h | h
    · subst h
      apply foldl_lookup_isSome hstep
      rw [hstep, if_pos hc]
      exact lookupA_setAct_isSome_self
    · exact ih _ h

lemma foldl_lookup_first (hstep : SetLike step c k v) {xs : List α} {m : ActMap}
    {q : String} {a : SyncAction} {x : α}
    (hm : lookupA m q = none) (hx : x ∈ xs) (hc : c x = true) (hk : k x = q)
    (hall : ∀ y ∈ xs, c y = true → k y = q → v y = a) :
    lookupA (xs.foldl step m) q = some a := by
  induction xs generalizing m with
  | nil => cases hx
  | cons y rest ih =>
    simp only [List.foldl_cons]
    by_cases hfirst : c y = true ∧ k y = q
    · have hv : v y = a := hall y (List.mem_cons_self _ _) hfirst.1 hfirst.2
      apply foldl_lookup_of_some hstep
      rw [hstep, if_pos hfirst.1, hfirst.2, hv]
      exact lookupA_setAct_self hm
    · have hxrest : x ∈ rest := by
        rcases List.mem_cons.mp hx with h | h
        · exact absurd (h ▸ ⟨hc, hk⟩) hfirst
        · exact h
      apply ih ?_ hxrest (fun z hz => hall z (List.mem_cons_of_mem _ hz))
      rw [hstep]
      split
      · rename_i hcy
        exact (lookupA_setAct_ne (fun hq => hfirst ⟨hcy, hq.symm⟩)).trans hm
      · exact hm

lemma foldl_mem_pred (hstep : SetLike step c k v) {xs : List α} {m : ActMap}
    (P : String × SyncAction → Prop)
    (hm : ∀ kv ∈ m, P kv) (hins : ∀ x ∈ xs, c x = true → P (k x, v x)) :
    ∀ kv ∈ xs.foldl step m, P kv := by
  induction xs generalizing m with
  | nil => simpa using hm
  | cons x rest ih =>
    simp only [List.foldl_cons]
    apply ih
    · intro kv hkv
      rw [hstep] at hkv
      split at hkv
      · rcases mem_setAct hkv with h | h
        · exact hm kv h
        · rename_i hc
          rw [h]
          exact hins x (List.mem_cons_self _ _) hc
      · exact hm kv hkv
    · intro y hy hcy
      exact hins y (List.mem_cons_of_mem _ hy) hcy

lemma foldl_keysNodup (hstep : SetLike step c k v) {xs : List α} {m : ActMap}
    (hm : keysNodup m) : keysNodup (xs.foldl step m) := by
  induction xs generalizing m with
  | nil => simpa using hm
  | cons x rest ih =>
    simp only [List.foldl_cons]
    apply ih
    rw [hstep]
    split
    · exact keysNodup_setAct hm
    · exact hm

end SetLikeFold

/-! ## The planner passes are set-like -/

lemma pass1_setLike (hostFiles : List FileMetadata) :
    SetLike (pass1Step hostFiles) (pass1Fires hostFiles) (pass1Key hostFiles)
      (pass1Val hostFiles) := by
  intro m d
  unfold pass1Step pass1Fires pass1Key pass1Val
  cases h : getFile hostFiles d.path with
  | none => simp
  | some hostFile =>
    simp only [Option.isSome_some, if_true]
    by_cases h1 : hostFile.deleted <;> by_cases h2 : hostFile.createdAt < d.deletedAt <;>
      simp [h1, h2]

lemma pass2_setLike (remoteFiles : List FileMetadata) :
    SetLike (pass2Step remoteFiles) (pass2Fires remoteFiles) (pass2Key remoteFiles)
      (pass2Val remoteFiles) := by
  intro m d
  unfold pass2Step pass2Fires pass2Key pass2Val
  cases h : getFile remoteFiles d.path with
  | none => simp
  | some remoteFile =>
    by_cases h1 : remoteFile.deleted <;> by_cases h2 : remoteFile.createdAt < d.deletedAt <;>
      simp [h1, h2]

lemma pass3_setLike (remoteFiles : List FileMetadata) (w : Nat) :
    SetLike (pass3Step remoteFiles w) (pass3Fires remoteFiles w) (fun f => f.path)
      (pass3Val remoteFiles) := by
  intro m f
  unfold pass3Step pass3Fires pass3Val
  cases h : getFile remoteFiles f.path with
  | none => simp
  | some remoteFile =>
    by_cases h1 : remoteFile.updatedAt < f.updatedAt <;> by_cases h2 : remoteFile.updatedAt > w <;>
      simp [h1, h2]

lemma pass4_setLike (hostFiles : List FileMetadata) (w : Nat) :
    SetLike (pass4Step hostFiles w) (pass4Fires hostFiles w) (fun rf => rf.path)
      (pass4Val hostFiles) := by
  intro m rf
  unfold pass4Step pass4Fires pass4Val
  cases h : getFile hostFiles rf.path with
  | none => simp
  | some hostFile =>
    by_cases h1 : hostFile.updatedAt < rf.updatedAt <;> by_cases h2 : hostFile.updatedAt > w <;>
      simp [h1, h2]

/-! ## Planner structure lemmas -/

lemma mem_lookupA_isSome {m : ActMap} {q : String} {a : SyncAction}
    (h : (q, a) ∈ m) : (lookupA m q).isSome := by
  induction m with
  | nil => cases h
  | cons kv rest ih =>
    simp only [lookupA]
    by_cases hk : kv.1 = q
    · rw [if_pos hk]; rfl
    · rw [if_neg hk]
      rcases List.mem_cons.mp h with h2 | h2
      · rw [← h2] at hk; simp at hk
      · exact ih h2

lemma getFile_unique {files : List FileMetadata} {p : String} {f g : FileMetadata}
    (hnd : pathsNodup files) (hf : getFile files p = some f)
    (hg : g ∈ files) (hgp : g.path = p) : g = f := by
  have := getFile_of_mem_nodup hnd hg
  rw [hgp, hf] at this
  exact (Option.some_inj.mp this).symm

/-- Every entry of `planMap` stores only records whose path equals its key. -/
lemma planMap_kv_paths (hostFiles remoteFiles : List FileMetadata) (w : Nat) :
    ∀ kv ∈ planMap hostFiles remoteFiles w,
      (∀ f, kv.2.hostFile = some f → f.path = kv.1) ∧
      (∀ f, kv.2.remoteFile = some f → f.path = kv.1) := by
  unfold planMap
  apply foldl_mem_pred (pass4_setLike hostFiles w)
  · apply foldl_mem_pred (pass3_setLike remoteFiles w)
    · apply foldl_mem_pred (pass2_setLike remoteFiles)
      · apply foldl_mem_pred (pass1_setLike hostFiles)
        · intro kv hkv; cases hkv
        · intro d _ _
          unfold pass1Key pass1Val
          cases h : getFile hostFiles d.path with
          | none => simp
          | some hostFile =>
            have hp := getFile_path h
            by_cases h1 : hostFile.deleted <;> by_cases h2 : hostFile.createdAt < d.deletedAt <;>
              simp [h1, h2, hp]
      · intro d _ _
        unfold pass2Key pass2Val
        cases h : getFile remoteFiles d.path with
        | none => simp
        | some remoteFile =>
          have hp := getFile_path h
          by_cases h1 : remoteFile.deleted <;> by_cases h2 : remoteFile.createdAt < d.deletedAt <;>
            simp [h1, h2, hp]
    · intro f _ _
      unfold pass3Val
      cases h : getFile remoteFiles f.path with
      | none => simp
      | some remoteFile =>
        have hp := getFile_path h
        by_cases h1 : remoteFile.updatedAt < f.updatedAt <;> simp [h1, hp]
  · intro rf _ _
    unfold pass4Val
    cases h : getFile hostFiles rf.path with
    | none => simp
    | some hostFile =>
      have hp := getFile_path h
      by_cases h1 : hostFile.updatedAt < rf.updatedAt <;> simp [h1, hp]

lemma pass1Key_eq (hostFiles : List FileMetadata) (d : FileMetadata) :
    pass1Key hostFiles d = d.path := by
  unfold pass1Key
  cases h : getFile hostFiles d.path with
  | none => rfl
  | some hostFile => exact getFile_path h

lemma pass2Key_eq (remoteFiles : List FileMetadata) (d : FileMetadata) :
    pass2Key remoteFiles d = d.path := by
  unfold pass2Key
  cases h : getFile remoteFiles d.path with
  | none => rfl
  | some remoteFile =>
    have hp := getFile_path h
    by_cases h1 : remoteFile.deleted <;> by_cases h2 : remoteFile.createdAt < d.deletedAt <;>
      simp [h1, h2, hp]

/-- If `a` appears among the plan's values, it mentions no path other than
its own key. -/
lemma createSyncAction_mentions {hostFiles remoteFiles : List FileMetadata} {w : Nat}
    {p : String}
    (hnokey : lookupA (planMap hostFiles remoteFiles w) p = none) :
    (createSyncAction hostFiles remoteFiles w).all
      (fun a => ! a.mentionsPath p) = true := by
  rw [List.all_eq_true]
  intro a ha
  rcases mem_values.mp ha with ⟨q, hq⟩
  have hqp : q ≠ p := by
    intro hqp
    subst hqp
    have := mem_lookupA_isSome hq
    rw [hnokey] at this
    simp at this
  have hpaths := planMap_kv_paths hostFiles remoteFiles w (q, a) hq
  simp only [SyncAction.mentionsPath, Bool.not_eq_true', Bool.or_eq_false_iff]
  constructor
  · cases hhf : a.hostFile with
    | none => rfl
    | some f =>
      have := hpaths.1 f hhf
      simp [Option.any, this, hqp]
  · cases hrf : a.remoteFile with
    | none => rfl
    | some f =>
      have := hpaths.2 f hrf
      simp [Option.any, this, hqp]

/-- A path held identically (live, same `updatedAt ≤ w`) on both sides is
never keyed by any planner pass. -/
lemma planMap_no_key_of_identical
    {hostFiles remoteFiles : List FileMetadata} {w : Nat} {p : String}
    {h r : FileMetadata}
    (hostND : pathsNodup hostFiles) (remND : pathsNodup remoteFiles)
    (hh : getFile hostFiles p = some h) (hr : getFile remoteFiles p = some r)
    (hhl : h.deleted = false) (hrl : r.deleted = false)
    (hu : h.updatedAt = r.updatedAt) (hw : r.updatedAt ≤ w) :
    lookupA (planMap hostFiles remoteFiles w) p = none := by
  have hc1 : ∀ x ∈ remoteFiles.filter (fun file => file.deleted),
      pass1Fires hostFiles x = true → pass1Key hostFiles x ≠ p := by
    intro x hx _ hkey
    rw [pass1Key_eq] at hkey
    have hxmem := (List.mem_filter.mp hx).1
    have hxdel : x.deleted = true := by simpa using (List.mem_filter.mp hx).2
    have := getFile_unique remND hr hxmem hkey
    rw [this] at hxdel
    rw [hrl] at hxdel
    cases hxdel
  have hc2 : ∀ x ∈ hostFiles.filter (fun file => file.deleted),
      pass2Fires remoteFiles x = true → pass2Key remoteFiles x ≠ p := by
    intro x hx _ hkey
    rw [pass2Key_eq] at hkey
    have hxmem := (List.mem_filter.mp hx).1
    have hxdel : x.deleted = true := by simpa using (List.mem_filter.mp hx).2
    have := getFile_unique hostND hh hxmem hkey
    rw [this] at hxdel
    rw [hhl] at hxdel
    cases hxdel
  have hc3 : ∀ x ∈ hostFiles.filter (fun file => !file.deleted),
      pass3Fires remoteFiles w x = true → x.path ≠ p := by
    intro x hx hfire hkey
    have hxmem := (List.mem_filter.mp hx).1
    have hxh := getFile_unique hostND hh hxmem hkey
    subst hxh
    unfold pass3Fires at hfire
    rw [hkey, hr] at hfire
    simp at hfire
    rcases hfire with hlt | hgt
    · rw [← hu] at hlt
      exact absurd hlt (lt_irrefl _)
    · exact absurd hgt (not_lt.mpr hw)
  have hc4 : ∀ x ∈ remoteFiles.filter (fun file => !file.deleted),
      pass4Fires hostFiles w x = true → x.path ≠ p := by
    intro x hx hfire hkey
    have hxmem := (List.mem_filter.mp hx).1
    have hxr := getFile_unique remND hr hxmem hkey
    subst hxr
    unfold pass4Fires at hfire
    rw [hkey, hh] at hfire
    simp at hfire
    rcases hfire with hlt | hgt
    · rw [hu] at hlt
      exact absurd hlt (lt_irrefl _)
    · rw [hu] at hgt
      exact absurd hgt (not_lt.mpr hw)
  simp only [planMap]
  rw [foldl_lookup_none (pass4_setLike hostFiles w) hc4]
  rw [foldl_lookup_none (pass3_setLike remoteFiles w) hc3]
  rw [foldl_lookup_none (pass2_setLike remoteFiles) hc2]
  rw [foldl_lookup_none (pass1_setLike hostFiles) hc1]
  rfl

/-- No planner pass keys the path of a remote tombstone that has no host
counterpart. -/
lemma planMap_no_key_of_lone_remote_tombstone
    {hostFiles remoteFiles : List FileMetadata} {w : Nat} {r : FileMetadata}
    (hostND : pathsNodup hostFiles) (remND : pathsNodup remoteFiles)
    (hrmem : r ∈ remoteFiles) (hrdel : r.deleted = true)
    (hnone : getFile hostFiles r.path = none) :
    lookupA (planMap hostFiles remoteFiles w) r.path = none := by
  have hru : getFile remoteFiles r.path = some r := getFile_of_mem_nodup remND hrmem
  have hc1 : ∀ x ∈ remoteFiles.filter (fun file => file.deleted),
      pass1Fires hostFiles x = true → pass1Key hostFiles x ≠ r.path := by
    intro x hx hfire hkey
    rw [pass1Key_eq] at hkey
    have hxmem := (List.mem_filter.mp hx).1
    have hxr := getFile_unique remND hru hxmem hkey
    subst hxr
    unfold pass1Fires at hfire
    rw [hkey, hnone] at hfire
    simp at hfire
  have hc2 : ∀ x ∈ hostFiles.filter (fun file => file.deleted),
      pass2Fires remoteFiles x = true → pass2Key remoteFiles x ≠ r.path := by
    intro x hx _ hkey
    rw [pass2Key_eq] at hkey
    have hxmem := (List.mem_filter.mp hx).1
    have := getFile_of_mem_nodup hostND hxmem
    rw [hkey, hnone] at this
    cases this
  have hc3 : ∀ x ∈ hostFiles.filter (fun file => !file.deleted),
      pass3Fires remoteFiles w x = true → x.path ≠ r.path := by
    intro x hx _ hkey
    have hxmem := (List.mem_filter.mp hx).1
    have := getFile_of_mem_nodup hostND hxmem
    rw [hkey, hnone] at this
    cases this
  have hc4 : ∀ x ∈ remoteFiles.filter (fun file => !file.deleted),
      pass4Fires hostFiles w x = true → x.path ≠ r.path := by
    intro x hx _ hkey
    have hxmem := (List.mem_filter.mp hx).1
    have hxlive : x.deleted = false := by simpa using (List.mem_filter.mp hx).2
    have hxr := getFile_unique remND hru hxmem hkey
    subst hxr
    rw [hxlive] at hrdel
    cases hrdel
  simp only [planMap]
  rw [foldl_lookup_none (pass4_setLike hostFiles w) hc4]
  rw [foldl_lookup_none (pass3_setLike remoteFiles w) hc3]
  rw [foldl_lookup_none (pass2_setLike remoteFiles) hc2]
  rw [foldl_lookup_none (pass1_setLike hostFiles) hc1]
  rfl

/-- Pass 1 assigns its case-analysis action to every remote tombstone that
has a host counterpart, and the later passes cannot overwrite it. -/
lemma planMap_remote_tombstone_assigns
    {hostFiles remoteFiles : List FileMetadata} {w : Nat} {r h : FileMetadata}
    (remND : pathsNodup remoteFiles)
    (hrmem : r ∈ remoteFiles) (hrdel : r.deleted = true)
    (hh : getFile hostFiles r.path = some h) :
    lookupA (planMap hostFiles remoteFiles w) r.path =
      some ⟨some h, some r,
        if h.deleted then .prune
        else if h.createdAt < r.deletedAt then .remove
        else .push⟩ := by
  have hru : getFile remoteFiles r.path = some r := getFile_of_mem_nodup remND hrmem
  have hval : pass1Val hostFiles r =
      ⟨some h, some r,
        if h.deleted then .prune
        else if h.createdAt < r.deletedAt then .remove
        else .push⟩ := by
    unfold pass1Val
    rw [hh]
    by_cases h1 : h.deleted <;> by_cases h2 : h.createdAt < r.deletedAt <;> simp [h1, h2]
  simp only [planMap]
  apply foldl_lookup_of_some (pass4_setLike hostFiles w)
  apply foldl_lookup_of_some (pass3_setLike remoteFiles w)
  apply foldl_lookup_of_some (pass2_setLike remoteFiles)
  apply foldl_lookup_first (pass1_setLike hostFiles) (x := r)
  · rfl
  · exact List.mem_filter.mpr ⟨hrmem, by simp [hrdel]⟩
  · unfold pass1Fires
    rw [hh]
    rfl
  · exact pass1Key_eq hostFiles r
  · intro y hy _ hkey
    rw [pass1Key_eq] at hkey
    have hymem := (List.mem_filter.mp hy).1
    have hyr := getFile_unique remND hru hymem hkey
    subst hyr
    exact hval

/-! ## Claims -/

/-- C1, counterexample: a path live and byte-identical on both sides (same
size, `createdAt` and `updatedAt = 100`; the planner input carries no
content hash, so identical contents are represented by identical metadata)
with watermark `0` makes `plan` emit a `conflict` action for that path, so
"no action for every watermark value" is false as stated. -/
theorem plan_identical_path_action_cex :
    createSyncAction [⟨"a.md", 5, 10, 100, 0, false⟩] [⟨"a.md", 5, 10, 100, 0, false⟩] 0 =
      [⟨some ⟨"a.md", 5, 10, 100, 0, false⟩, some ⟨"a.md", 5, 10, 100, 0, false⟩, .conflict⟩] ∧
    (createSyncAction [⟨"a.md", 5, 10, 100, 0, false⟩] [⟨"a.md", 5, 10, 100, 0, false⟩] 0).all
      (fun a => ! a.mentionsPath "a.md") = false := by
  constructor <;> decide

/-- C1 (amended): for every pair of input sets in which a path is present as
a live record on both host and remote with the same content hash and the
same `updatedAt`, `plan` emits no action for that path **for every watermark
value at least that `updatedAt`** (for smaller watermarks a `conflict`
action is emitted, see the counterexample). -/
theorem plan_identical_path_no_action
    (hostFiles remoteFiles : List FileMetadata) (w : Nat) (p : String)
    (h r : FileMetadata)
    (hostND : pathsNodup hostFiles) (remND : pathsNodup remoteFiles)
    (hh : getFile hostFiles p = some h) (hr : getFile remoteFiles p = some r)
    (hhl : h.deleted = false) (hrl : r.deleted = false)
    (hu : h.updatedAt = r.updatedAt) (hw : r.updatedAt ≤ w) :
    (createSyncAction hostFiles remoteFiles w).all (fun a => ! a.mentionsPath p) = true :=
  createSyncAction_mentions (planMap_no_key_of_identical hostND remND hh hr hhl hrl hu hw)

/-- C1 witness: the amended theorem at a concrete identical pair. -/
theorem plan_identical_path_no_action_witness :
    (createSyncAction [⟨"a.md", 5, 10, 100, 0, false⟩] [⟨"a.md", 5, 10, 100, 0, false⟩] 100).all
      (fun a => ! a.mentionsPath "a.md") = true :=
  plan_identical_path_no_action _ _ 100 "a.md"
    ⟨"a.md", 5, 10, 100, 0, false⟩ ⟨"a.md", 5, 10, 100, 0, false⟩
    (by unfold pathsNodup; decide) (by unfold pathsNodup; decide) (by decide) (by decide)
    (by decide) (by decide) (by decide) (by decide)

/-- C3: for every remote tombstone: with no host record at its path, `plan`
emits no action for that path (in particular never `prune` or `remove`);
with a host tombstone it assigns `prune`; with a live host record created
strictly before the tombstone's `deletedAt` it assigns `remove`; otherwise
it assigns `push`. -/
theorem plan_remote_tombstone_cases
    (hostFiles remoteFiles : List FileMetadata) (w : Nat) (r : FileMetadata)
    (hostND : pathsNodup hostFiles) (remND : pathsNodup remoteFiles)
    (hrmem : r ∈ remoteFiles) (hrdel : r.deleted = true) :
    match getFile hostFiles r.path with
    | none =>
        (createSyncAction hostFiles remoteFiles w).all
          (fun a => ! a.mentionsPath r.path) = true
    | some h =>
        lookupA (planMap hostFiles remoteFiles w) r.path =
          some ⟨some h, some r,
            if h.deleted then .prune
            else if h.createdAt < r.deletedAt then .remove
            else .push⟩ ∧
        (⟨some h, some r,
            if h.deleted then .prune
            else if h.createdAt < r.deletedAt then .remove
            else .push⟩ : SyncAction) ∈ createSyncAction hostFiles remoteFiles w := by
  cases hh : getFile hostFiles r.path with
  | none =>
    exact createSyncAction_mentions
      (planMap_no_key_of_lone_remote_tombstone hostND remND hrmem hrdel hh)
  | some h =>
    have hlook := planMap_remote_tombstone_assigns (w := w) remND hrmem hrdel hh
    exact ⟨hlook, mem_values.mpr ⟨r.path, lookupA_mem hlook⟩⟩

/-- C3 witness: the theorem at Scenario-B-like data (remote tombstone
`deletedAt = 50`, live host record `createdAt = 40`), hitting the `remove`
branch. -/
theorem plan_remote_tombstone_cases_witness :
    match getFile [⟨"x.txt", 3, 40, 45, 0, false⟩] "x.txt" with
    | none =>
        (createSyncAction [⟨"x.txt", 3, 40, 45, 0, false⟩] [⟨"x.txt", 0, 50, 50, 50, true⟩] 7).all
          (fun a => ! a.mentionsPath "x.txt") = true
    | some h =>
        lookupA (planMap [⟨"x.txt", 3, 40, 45, 0, false⟩] [⟨"x.txt", 0, 50, 50, 50, true⟩] 7)
            "x.txt" =
          some ⟨some h, some ⟨"x.txt", 0, 50, 50, 50, true⟩,
            if h.deleted then .prune
            else if h.createdAt < (⟨"x.txt", 0, 50, 50, 50, true⟩ : FileMetadata).deletedAt then
              .remove
            else .push⟩ ∧
        (⟨some h, some ⟨"x.txt", 0, 50, 50, 50, true⟩,
            if h.deleted then .prune
            else if h.createdAt < (⟨"x.txt", 0, 50, 50, 50, true⟩ : FileMetadata).deletedAt then
              .remove
            else .push⟩ : SyncAction) ∈
          createSyncAction [⟨"x.txt", 3, 40, 45, 0, false⟩] [⟨"x.txt", 0, 50, 50, 50, true⟩] 7 :=
  plan_remote_tombstone_cases [⟨"x.txt", 3, 40, 45, 0, false⟩] [⟨"x.txt", 0, 50, 50, 50, true⟩]
    7 ⟨"x.txt", 0, 50, 50, 50, true⟩ (by unfold pathsNodup; decide) (by unfold pathsNodup; decide)
    (by decide) (by decide)

lemma isTextBasedFile_iff (f : FileMetadata) :
    ConflictResolver.isTextBasedFile f = true ↔
      ConflictResolver.getExtension f ∈
        (["md", "txt", "json", "yaml", "yml", "toml", "ini", "conf", "cfg", "config",
          "properties", "env"] : List String) := by
  unfold ConflictResolver.isTextBasedFile
  constructor
  · intro h
    have := List.elem_iff.mp h
    simp at this ⊢
    tauto
  · intro h
    apply List.elem_iff.mpr
    simp at h ⊢
    tauto

/-- C5: files whose extension is on the fixed text allow-list always
classify as `resolve`, regardless of configured rules; every other file gets
the strategy of the first flattened pattern (declared order) matching its
path, or the configured fallback when none matches. -/
theorem getResolutionStrategy_spec
    (mm : String → String → Bool) (settings : Settings)
    (hostFile remoteFile : FileMetadata) :
    (ConflictResolver.getExtension hostFile ∈
        (["md", "txt", "json", "yaml", "yml", "toml", "ini", "conf", "cfg", "config",
          "properties", "env"] : List String) →
      ConflictResolver.getResolutionStrategy mm settings hostFile remoteFile = .resolve)
    ∧ (ConflictResolver.getExtension hostFile ∉
        (["md", "txt", "json", "yaml", "yml", "toml", "ini", "conf", "cfg", "config",
          "properties", "env"] : List String) →
      ConflictResolver.getResolutionStrategy mm settings hostFile remoteFile =
        match (ConflictResolver.flattenRules settings.resolution_strategies).find?
            (fun strategy => mm hostFile.path strategy.glob) with
        | some m => m.strategy
        | none => settings.fallback_conflict_resolution_strategy) := by
  constructor
  · intro hmem
    have htext := (isTextBasedFile_iff hostFile).mpr hmem
    unfold ConflictResolver.getResolutionStrategy
    simp [htext]
  · intro hmem
    have htext : ConflictResolver.isTextBasedFile hostFile = false := by
      cases h : ConflictResolver.isTextBasedFile hostFile with
      | false => rfl
      | true => exact absurd ((isTextBasedFile_iff hostFile).mp h) hmem
    unfold ConflictResolver.getResolutionStrategy
    simp [htext]

/-- C5 witness: a `.md` file classifies as `resolve` even though a
configured rule that matches every path says `ignore`. -/
theorem getResolutionStrategy_spec_witness :
    ConflictResolver.getResolutionStrategy (fun _ _ => true)
      ⟨[⟨"**", .ignore⟩], .latest, "", 0⟩
      ⟨"notes/a.md", 1, 2, 3, 0, false⟩ ⟨"notes/a.md", 1, 2, 3, 0, false⟩ = .resolve :=
  (getResolutionStrategy_spec (fun _ _ => true) ⟨[⟨"**", .ignore⟩], .latest, "", 0⟩
    ⟨"notes/a.md", 1, 2, 3, 0, false⟩ ⟨"notes/a.md", 1, 2, 3, 0, false⟩).1 (by decide)

/-- C6: `resolve` designates the snapshot with the strictly smaller
`updatedAt` as the older one and reconciles the older text against itself as
baseline with the newer text as the incoming change. -/
theorem resolve_older_as_base
    (reconcile : String → String → String → ConflictResolver.ReconcileResult)
    (hostFile remoteFile : FileMetadata) (hostText remoteText : String) :
    (hostFile.updatedAt < remoteFile.updatedAt →
      ConflictResolver.resolve reconcile hostFile remoteFile hostText remoteText =
        (reconcile hostText hostText remoteText).text)
    ∧ (remoteFile.updatedAt < hostFile.updatedAt →
      ConflictResolver.resolve reconcile hostFile remoteFile hostText remoteText =
        (reconcile remoteText remoteText hostText).text) := by
  constructor
  · intro hlt
    unfold ConflictResolver.resolve
    simp [hlt]
  · intro hlt
    have hnot : ¬ hostFile.updatedAt < remoteFile.updatedAt := not_lt.mpr hlt.le
    unfold ConflictResolver.resolve
    simp [hnot]

/-- C6 witness: concrete records with host older than remote. -/
theorem resolve_older_as_base_witness :
    ConflictResolver.resolve (fun o b n => ⟨o ++ b ++ n⟩)
      ⟨"a.md", 1, 1, 100, 0, false⟩ ⟨"a.md", 1, 1, 200, 0, false⟩ "H" "R" =
      ((fun (o b n : String) => (⟨o ++ b ++ n⟩ : ConflictResolver.ReconcileResult)) "H" "H" "R").text :=
  (resolve_older_as_base (fun o b n => ⟨o ++ b ++ n⟩)
    ⟨"a.md", 1, 1, 100, 0, false⟩ ⟨"a.md", 1, 1, 200, 0, false⟩ "H" "R").1 (by decide)

/-- C8: the local store's `update` and `remove` fail with the staleness
error exactly when the currently recorded mtime is non-zero and differs from
`previousUpdatedAt`; otherwise the write resp. delete proceeds. -/
theorem localFileSystem_staleness
    (v : Vault) (path content : String) (previousUpdatedAt newUpdatedAt : Nat) :
    (LocalFileSystem.update v path content previousUpdatedAt newUpdatedAt =
        .error "File has been modified since last sync" ↔
      ((LocalFileSystem.getFileStats v path).1 ≠ 0 ∧
       (LocalFileSystem.getFileStats v path).1 ≠ previousUpdatedAt))
    ∧ (LocalFileSystem.remove v path previousUpdatedAt =
        .error "File has been modified since last sync" ↔
      ((LocalFileSystem.getFileStats v path).1 ≠ 0 ∧
       (LocalFileSystem.getFileStats v path).1 ≠ previousUpdatedAt))
    ∧ (¬((LocalFileSystem.getFileStats v path).1 ≠ 0 ∧
         (LocalFileSystem.getFileStats v path).1 ≠ previousUpdatedAt) →
      LocalFileSystem.update v path content previousUpdatedAt newUpdatedAt =
        .ok (LocalFileSystem.writeFile v path content newUpdatedAt
          (if (LocalFileSystem.getFileStats v path).2 = 0 then newUpdatedAt
           else (LocalFileSystem.getFileStats v path).2)))
    ∧ (¬((LocalFileSystem.getFileStats v path).1 ≠ 0 ∧
         (LocalFileSystem.getFileStats v path).1 ≠ previousUpdatedAt) →
      LocalFileSystem.remove v path previousUpdatedAt =
        .ok (v.filter (fun kv => kv.1 ≠ path))) := by
  unfold LocalFileSystem.update LocalFileSystem.remove
  by_cases hstale : ((LocalFileSystem.getFileStats v path).1 ≠ 0 ∧
      (LocalFileSystem.getFileStats v path).1 ≠ previousUpdatedAt)
  · refine ⟨?_, ?_, ?_, ?_⟩ <;> simp [hstale]
  · refine ⟨?_, ?_, ?_, ?_⟩ <;> simp [hstale]

/-- C8 witness: a fresh path (stats `(0,0)`) accepts the write. -/
theorem localFileSystem_staleness_witness :
    LocalFileSystem.update [] "n.md" "hi" 0 5 =
      .ok (LocalFileSystem.writeFile [] "n.md" "hi" 5
        (if (LocalFileSystem.getFileStats [] "n.md").2 = 0 then 5
         else (LocalFileSystem.getFileStats [] "n.md").2)) :=
  (localFileSystem_staleness [] "n.md" "hi" 0 5).2.2.1 (by decide)

/-! ## Applier trace lemmas -/

lemma applySyncAction_eq_direct (cfg : Config) (st : SyncState) (a : SyncAction) (now : Nat)
    (ha : a.action ≠ .conflict) :
    applySyncAction cfg st a now = applyDirect st a now := by
  unfold applySyncAction
  cases h : a.action with
  | conflict => exact absurd h ha
  | prune => rfl
  | remove => rfl
  | push => rfl
  | pull => rfl

lemma applyDirect_ops (st : SyncState) (a : SyncAction) (now : Nat) :
    ∀ op ∈ (applyDirect st a now).trace,
      op.isRemotePrune = false ∧ op.isSetWatermark = false ∧
      (op.isHostPrune = true → a.action = .prune ∧ a.hostFile.isSome = true) := by
  intro op hop
  cases ha : a.action with
  | conflict => simp [applyDirect, ha] at hop
  | prune =>
    cases hhf : a.hostFile with
    | none => simp [applyDirect, ha, hhf] at hop
    | some h =>
      simp [applyDirect, ha, hhf] at hop
      subst hop
      simp [StoreOp.isRemotePrune, StoreOp.isSetWatermark, StoreOp.isHostPrune, ha, hhf]
  | remove =>
    cases hrf : a.remoteFile with
    | none =>
      cases hhf : a.hostFile with
      | none => simp [applyDirect, ha, hrf, hhf] at hop
      | some h =>
        cases hres : st.host.remove h.path h.updatedAt now <;>
          · simp [applyDirect, ha, hrf, hhf, hres] at hop
            subst hop
            simp [StoreOp.isRemotePrune, StoreOp.isSetWatermark, StoreOp.isHostPrune]
    | some r =>
      cases hres : st.remote.remove r.path r.updatedAt now with
      | error e =>
        simp [applyDirect, ha, hrf, hres] at hop
        subst hop
        simp [StoreOp.isRemotePrune, StoreOp.isSetWatermark, StoreOp.isHostPrune]
      | ok rem2 =>
        cases hhf : a.hostFile with
        | none =>
          simp [applyDirect, ha, hrf, hres, hhf] at hop
          subst hop
          simp [StoreOp.isRemotePrune, StoreOp.isSetWatermark, StoreOp.isHostPrune]
        | some h =>
          cases hres2 : ({ st with remote := rem2 } : SyncState).host.remove h.path h.updatedAt now <;>
            · simp [applyDirect, ha, hrf, hres, hhf, hres2] at hop
              rcases hop with hop | hop <;>
                · subst hop
                  simp [StoreOp.isRemotePrune, StoreOp.isSetWatermark, StoreOp.isHostPrune]
  | push =>
    cases hhf : a.hostFile with
    | none => simp [applyDirect, ha, hhf] at hop
    | some h =>
      cases hc : st.host.getFileContent h.path with
      | none =>
        simp [applyDirect, ha, hhf, hc] at hop
        subst hop
        simp [StoreOp.isRemotePrune, StoreOp.isSetWatermark, StoreOp.isHostPrune]
      | some content =>
        cases hres : st.remote.update h.path content
            (match a.remoteFile with
             | some remoteFile => remoteFile.updatedAt
             | none => h.updatedAt) h.updatedAt <;>
          · simp [applyDirect, ha, hhf, hc, hres] at hop
            rcases hop with hop | hop <;>
              · subst hop
                simp [StoreOp.isRemotePrune, StoreOp.isSetWatermark, StoreOp.isHostPrune]
  | pull =>
    cases hrf : a.remoteFile with
    | none => simp [applyDirect, ha, hrf] at hop
    | some r =>
      cases hc : st.remote.getFileContent r.path with
      | none =>
        simp [applyDirect, ha, hrf, hc] at hop
        subst hop
        simp [StoreOp.isRemotePrune, StoreOp.isSetWatermark, StoreOp.isHostPrune]
      | some content =>
        cases hres : st.host.update r.path content
            (match a.hostFile with
             | some hostFile => hostFile.updatedAt
             | none => r.updatedAt) r.updatedAt <;>
          · simp [applyDirect, ha, hrf, hc, hres] at hop
            rcases hop with hop | hop <;>
              · subst hop
                simp [StoreOp.isRemotePrune, StoreOp.isSetWatermark, StoreOp.isHostPrune]

lemma applySyncAction_ops (cfg : Config) (st : SyncState) (a : SyncAction) (now : Nat) :
    ∀ op ∈ (applySyncAction cfg st a now).trace,
      op.isRemotePrune = false ∧ op.isSetWatermark = false ∧
      (op.isHostPrune = true → a.action = .prune ∧ a.hostFile.isSome = true) := by
  have hredis : ∀ kind : ActionKind, kind ≠ .prune →
      ∀ op ∈ (applyDirect st ⟨a.hostFile, a.remoteFile, kind⟩ now).trace,
        op.isRemotePrune = false ∧ op.isSetWatermark = false ∧ op.isHostPrune = false := by
    intro kind hk op hop
    have hall := applyDirect_ops st ⟨a.hostFile, a.remoteFile, kind⟩ now op hop
    refine ⟨hall.1, hall.2.1, ?_⟩
    cases hp : op.isHostPrune with
    | false => rfl
    | true => exact absurd (hall.2.2 hp).1 hk
  cases ha : a.action with
  | conflict =>
    intro op hop
    unfold applySyncAction at hop
    rw [ha] at hop
    cases hhf : a.hostFile with
    | none =>
      simp only [hhf] at hop
      simp at hop
    | some h =>
      cases hrf : a.remoteFile with
      | none =>
        simp only [hhf, hrf] at hop
        simp at hop
      | some r =>
        simp only [hhf, hrf] at hop
        cases hc1 : st.host.getFileContent h.path with
        | none =>
          simp only [hc1] at hop
          simp at hop
          subst hop
          simp [StoreOp.isRemotePrune, StoreOp.isSetWatermark, StoreOp.isHostPrune]
        | some hostFileData =>
          simp only [hc1] at hop
          cases hc2 : st.remote.getFileContent r.path with
          | none =>
            simp only [hc2] at hop
            simp at hop
            rcases hop with hop | hop <;>
              · subst hop
                simp [StoreOp.isRemotePrune, StoreOp.isSetWatermark, StoreOp.isHostPrune]
          | some remoteFileData =>
            simp only [hc2] at hop
            cases hstrat : ConflictResolver.getResolutionStrategy cfg.mm cfg.settings h r with
            | resolve =>
              simp only [hstrat] at hop
              cases hres : st.remote.update r.path
                  (ConflictResolver.resolve cfg.reconcile h r hostFileData remoteFileData)
                  r.updatedAt now with
              | error e =>
                simp only [hres] at hop
                simp at hop
                rcases hop with hop | hop | hop <;>
                  · subst hop
                    simp [StoreOp.isRemotePrune, StoreOp.isSetWatermark, StoreOp.isHostPrune]
              | ok rem2 =>
                simp only [hres] at hop
                cases hres2 : st.host.update h.path
                    (ConflictResolver.resolve cfg.reconcile h r hostFileData remoteFileData)
                    h.updatedAt now <;>
                  · simp only [hres2] at hop
                    simp at hop
                    rcases hop with hop | hop | hop | hop <;>
                      · subst hop
                        simp [StoreOp.isRemotePrune, StoreOp.isSetWatermark, StoreOp.isHostPrune]
            | ignore =>
              simp only [hstrat] at hop
              simp at hop
              rcases hop with hop | hop <;>
                · subst hop
                  simp [StoreOp.isRemotePrune, StoreOp.isSetWatermark, StoreOp.isHostPrune]
            | latest =>
              simp only [hstrat] at hop
              simp at hop
              rcases hop with hop | hop | hop
              · subst hop
                simp [StoreOp.isRemotePrune, StoreOp.isSetWatermark, StoreOp.isHostPrune]
              · subst hop
                simp [StoreOp.isRemotePrune, StoreOp.isSetWatermark, StoreOp.isHostPrune]
              · have := hredis (if h.updatedAt < r.updatedAt then .pull else .push)
                  (by split <;> simp) op (by rw [hhf, hrf]; exact hop)
                exact ⟨this.1, this.2.1, fun hp => absurd (this.2.2 ▸ hp) (by simp [this.2.2])⟩
            | oldest =>
              simp only [hstrat] at hop
              simp at hop
              rcases hop with hop | hop | hop
              · subst hop
                simp [StoreOp.isRemotePrune, StoreOp.isSetWatermark, StoreOp.isHostPrune]
              · subst hop
                simp [StoreOp.isRemotePrune, StoreOp.isSetWatermark, StoreOp.isHostPrune]
              · have := hredis (if h.updatedAt < r.updatedAt then .push else .pull)
                  (by split <;> simp) op (by rw [hhf, hrf]; exact hop)
                exact ⟨this.1, this.2.1, fun hp => absurd (this.2.2 ▸ hp) (by simp [this.2.2])⟩
            | alwaysPull =>
              simp only [hstrat] at hop
              simp at hop
              rcases hop with hop | hop | hop
              · subst hop
                simp [StoreOp.isRemotePrune, StoreOp.isSetWatermark, StoreOp.isHostPrune]
              · subst hop
                simp [StoreOp.isRemotePrune, StoreOp.isSetWatermark, StoreOp.isHostPrune]
              · have := hredis .pull (by simp) op (by rw [hhf, hrf]; exact hop)
                exact ⟨this.1, this.2.1, fun hp => absurd (this.2.2 ▸ hp) (by simp [this.2.2])⟩
            | alwaysPush =>
              simp only [hstrat] at hop
              simp at hop
              rcases hop with hop | hop | hop
              · subst hop
                simp [StoreOp.isRemotePrune, StoreOp.isSetWatermark, StoreOp.isHostPrune]
              · subst hop
                simp [StoreOp.isRemotePrune, StoreOp.isSetWatermark, StoreOp.isHostPrune]
              · have := hredis .push (by simp) op (by rw [hhf, hrf]; exact hop)
                exact ⟨this.1, this.2.1, fun hp => absurd (this.2.2 ▸ hp) (by simp [this.2.2])⟩
  | prune =>
    intro op hop
    rw [applySyncAction_eq_direct cfg st a now (by simp [ha])] at hop
    have hall := applyDirect_ops st a now op hop
    rw [ha] at hall
    exact hall
  | remove =>
    intro op hop
    rw [applySyncAction_eq_direct cfg st a now (by simp [ha])] at hop
    have hall := applyDirect_ops st a now op hop
    rw [ha] at hall
    exact hall
  | push =>
    intro op hop
    rw [applySyncAction_eq_direct cfg st a now (by simp [ha])] at hop
    have hall := applyDirect_ops st a now op hop
    rw [ha] at hall
    exact hall
  | pull =>
    intro op hop
    rw [applySyncAction_eq_direct cfg st a now (by simp [ha])] at hop
    have hall := applyDirect_ops st a now op hop
    rw [ha] at hall
    exact hall

lemma runActions_ops (cfg : Config) (actions : List SyncAction) (st : SyncState) (now : Nat) :
    ∀ op ∈ (runActions cfg st actions now).trace,
      op.isSetWatermark = false ∧ op.isRemotePrune = false := by
  induction actions generalizing st with
  | nil =>
    intro op hop
    simp [runActions] at hop
  | cons a rest ih =>
    intro op hop
    simp only [runActions] at hop
    cases hre : (applySyncAction cfg st a now).error with
    | some e =>
      rw [hre] at hop
      simp at hop
      have := applySyncAction_ops cfg st a now op hop
      exact ⟨this.2.1, this.1⟩
    | none =>
      rw [hre] at hop
      simp at hop
      rcases hop with hop | hop
      · have := applySyncAction_ops cfg st a now op hop
        exact ⟨this.2.1, this.1⟩
      · exact ih _ op hop

/-- C10: the applier invokes `prune` only on the host store, only for
`prune` actions whose `hostFile` is non-null, and a `prune` action performs
exactly that single host-side call; the remote store's `prune` is never
invoked for any action. -/
theorem applier_prune_frame (cfg : Config) (st : SyncState) (a : SyncAction) (now : Nat) :
    ((applySyncAction cfg st a now).trace.all (fun op => !op.isRemotePrune) = true)
    ∧ ((applySyncAction cfg st a now).trace.any StoreOp.isHostPrune = true →
        a.action = .prune ∧ a.hostFile.isSome = true)
    ∧ (a.action = .prune →
        (applySyncAction cfg st a now).trace =
          match a.hostFile with
          | some h => [StoreOp.hostPrune h.path]
          | none => []) := by
  refine ⟨?_, ?_, ?_⟩
  · rw [List.all_eq_true]
    intro op hop
    simp [(applySyncAction_ops cfg st a now op hop).1]
  · intro hany
    rcases List.any_eq_true.mp hany with ⟨op, hop, hp⟩
    exact (applySyncAction_ops cfg st a now op hop).2.2 hp
  · intro ha
    rw [applySyncAction_eq_direct cfg st a now (by simp [ha])]
    cases hhf : a.hostFile <;> simp [applyDirect, ha, hhf]

/-- C10 witness: a `prune` action with tombstones on both sides performs
exactly one host-side prune call and nothing on the remote store. -/
theorem applier_prune_frame_witness :
    (applySyncAction ⟨fun _ _ => false, fun _ _ n => ⟨n⟩, ⟨[], .latest, "", 0⟩⟩
        ⟨⟨[⟨"t.md", 0, 5, 5, 5, true⟩], []⟩, ⟨[⟨"t.md", 0, 6, 6, 6, true⟩], []⟩⟩
        ⟨some ⟨"t.md", 0, 5, 5, 5, true⟩, some ⟨"t.md", 0, 6, 6, 6, true⟩, .prune⟩ 9).trace =
      [StoreOp.hostPrune "t.md"] :=
  (applier_prune_frame ⟨fun _ _ => false, fun _ _ n => ⟨n⟩, ⟨[], .latest, "", 0⟩⟩
    ⟨⟨[⟨"t.md", 0, 5, 5, 5, true⟩], []⟩, ⟨[⟨"t.md", 0, 6, 6, 6, true⟩], []⟩⟩
    ⟨some ⟨"t.md", 0, 5, 5, 5, true⟩, some ⟨"t.md", 0, 6, 6, 6, true⟩, .prune⟩ 9).2.2 rfl

/-- C7: for every `remove` action, every call the applier makes is a
deletion, the remote deletion (when a remote record exists) is the first
call of the action, and after the first host deletion no remote deletion
occurs — the remote store's deletion strictly precedes the host store's in
every execution. -/
theorem remove_remote_before_host (cfg : Config) (st : SyncState) (a : SyncAction) (now : Nat)
    (ha : a.action = .remove) :
    (((applySyncAction cfg st a now).trace.dropWhile (fun op => !op.isHostRemove)).all
        (fun op => !op.isRemoteRemove) = true)
    ∧ ((applySyncAction cfg st a now).trace.all
        (fun op => op.isRemoteRemove || op.isHostRemove) = true)
    ∧ (match a.remoteFile with
       | some r => (applySyncAction cfg st a now).trace.head? =
           some (StoreOp.remoteRemove r.path r.updatedAt now)
       | none => True) := by
  rw [applySyncAction_eq_direct cfg st a now (by simp [ha])]
  cases hrf : a.remoteFile with
  | none =>
    cases hhf : a.hostFile with
    | none =>
      simp [applyDirect, ha, hrf, hhf]
    | some h =>
      cases hres : st.host.remove h.path h.updatedAt now <;>
        simp [applyDirect, ha, hrf, hhf, hres, StoreOp.isHostRemove, StoreOp.isRemoteRemove,
          List.dropWhile]
  | some r =>
    cases hres : st.remote.remove r.path r.updatedAt now with
    | error e =>
      simp [applyDirect, ha, hrf, hres, StoreOp.isHostRemove, StoreOp.isRemoteRemove,
        List.dropWhile]
    | ok rem2 =>
      cases hhf : a.hostFile with
      | none =>
        simp [applyDirect, ha, hrf, hres, hhf, StoreOp.isHostRemove, StoreOp.isRemoteRemove,
          List.dropWhile]
      | some h =>
        cases hres2 : ({ st with remote := rem2 } : SyncState).host.remove h.path h.updatedAt now <;>
          simp [applyDirect, ha, hrf, hres, hhf, hres2, StoreOp.isHostRemove,
            StoreOp.isRemoteRemove, List.dropWhile]

/-- C7 witness: a `remove` action with records on both sides opens with the
remote deletion. -/
theorem remove_remote_before_host_witness :
    (applySyncAction ⟨fun _ _ => false, fun _ _ n => ⟨n⟩, ⟨[], .latest, "", 0⟩⟩
        ⟨⟨[⟨"x.txt", 3, 40, 45, 0, false⟩], [("x.txt", "x")]⟩,
         ⟨[⟨"x.txt", 3, 40, 45, 0, false⟩], [("x.txt", "x")]⟩⟩
        ⟨some ⟨"x.txt", 3, 40, 45, 0, false⟩, some ⟨"x.txt", 3, 40, 45, 0, false⟩, .remove⟩
        100).trace.head? = some (StoreOp.remoteRemove "x.txt" 45 100) :=
  (remove_remote_before_host ⟨fun _ _ => false, fun _ _ n => ⟨n⟩, ⟨[], .latest, "", 0⟩⟩
    ⟨⟨[⟨"x.txt", 3, 40, 45, 0, false⟩], [("x.txt", "x")]⟩,
     ⟨[⟨"x.txt", 3, 40, 45, 0, false⟩], [("x.txt", "x")]⟩⟩
    ⟨some ⟨"x.txt", 3, 40, 45, 0, false⟩, some ⟨"x.txt", 3, 40, 45, 0, false⟩, .remove⟩
    100 rfl).2.2

/-- C9: the watermark persisted by a pass equals the old value whenever any
action threw, equals `now` exactly when the pass completed, and the only
watermark write in the pass's call trace is a single final one emitted only
on completion. -/
theorem sync_watermark_discipline (cfg : Config) (st : SyncState) (now : Nat) :
    ((sync cfg st now).error.isSome = true →
      (sync cfg st now).settings.last_synced_at = cfg.settings.last_synced_at)
    ∧ ((sync cfg st now).error = none →
      (sync cfg st now).settings.last_synced_at = now)
    ∧ ((sync cfg st now).trace.filter StoreOp.isSetWatermark =
        if (sync cfg st now).error = none then [StoreOp.setWatermark now] else [])
    ∧ ((sync cfg st now).error = none →
      (sync cfg st now).trace.getLast? = some (StoreOp.setWatermark now)) := by
  have hops := runActions_ops cfg
    (createSyncAction st.host.files
      (st.remote.files.filter
        (fun file => !isFileExcluded cfg.mm file.path (splitPatterns cfg.settings.exclude_globs)))
      cfg.settings.last_synced_at) st now
  have hfilter : (runActions cfg st
      (createSyncAction st.host.files
        (st.remote.files.filter
          (fun file => !isFileExcluded cfg.mm file.path (splitPatterns cfg.settings.exclude_globs)))
        cfg.settings.last_synced_at) now).trace.filter StoreOp.isSetWatermark = [] := by
    rw [List.filter_eq_nil_iff]
    intro op hop
    simp [(hops op hop).1]
  have main : ∀ R : ApplyResult,
      R.trace.filter StoreOp.isSetWatermark = [] →
      ((finishSync cfg.settings now R).error.isSome = true →
        (finishSync cfg.settings now R).settings.last_synced_at = cfg.settings.last_synced_at)
      ∧ ((finishSync cfg.settings now R).error = none →
        (finishSync cfg.settings now R).settings.last_synced_at = now)
      ∧ ((finishSync cfg.settings now R).trace.filter StoreOp.isSetWatermark =
          if (finishSync cfg.settings now R).error = none then [StoreOp.setWatermark now] else [])
      ∧ ((finishSync cfg.settings now R).error = none →
        (finishSync cfg.settings now R).trace.getLast? = some (StoreOp.setWatermark now)) := by
    intro R hRfilter
    cases hre : R.error with
    | some e =>
      refine ⟨fun _ => by simp [finishSync, hre], ?_, ?_, ?_⟩
      · intro hcontra
        simp [finishSync, hre] at hcontra
      · simp [finishSync, hre, hRfilter]
      · intro hcontra
        simp [finishSync, hre] at hcontra
    | none =>
      refine ⟨?_, fun _ => by simp [finishSync, hre], ?_, ?_⟩
      · intro hcontra
        simp [finishSync, hre] at hcontra
      · simp [finishSync, hre, List.filter_append, hRfilter, StoreOp.isSetWatermark]
      · intro _
        simp [finishSync, hre]
  simp only [sync]
  exact main _ hfilter

/-- C9 witness: an empty pass completes and persists `now` as the
watermark. -/
theorem sync_watermark_discipline_witness :
    (sync ⟨fun _ _ => false, fun _ _ n => ⟨n⟩, ⟨[], .latest, "", 0⟩⟩
        ⟨⟨[], []⟩, ⟨[], []⟩⟩ 5).settings.last_synced_at = 5 :=
  (sync_watermark_discipline ⟨fun _ _ => false, fun _ _ n => ⟨n⟩, ⟨[], .latest, "", 0⟩⟩
    ⟨⟨[], []⟩, ⟨[], []⟩⟩ 5).2.1 (by decide)

/-- C2, counterexample: a `push` action whose host record has
`updatedAt = 45`, applied with `now = 100`, writes to the remote with `45`
as the new timestamp — the host record's `updatedAt`, not `now` as claimed
(the optimistic-concurrency token, `45` here via the no-remote-record
fallback, matches the claim). -/
theorem applier_push_timestamp_cex :
    (applySyncAction ⟨fun _ _ => false, fun _ _ n => ⟨n⟩, ⟨[], .latest, "", 0⟩⟩
        ⟨⟨[⟨"a.bin", 1, 1, 45, 0, false⟩], [("a.bin", "x")]⟩, ⟨[], []⟩⟩
        ⟨some ⟨"a.bin", 1, 1, 45, 0, false⟩, none, .push⟩ 100).trace =
      [StoreOp.hostRead "a.bin", StoreOp.remoteUpdate "a.bin" "x" 45 45] ∧
    (45 : Nat) ≠ 100 := by
  constructor
  · decide
  · decide

/-- C2 (amended): a `push` reads the content from the host and writes it to
the remote, with the previously observed remote `updatedAt` (or, with no
remote record, the host's `updatedAt`) as the optimistic-concurrency token
and the **host record's `updatedAt`** (not `now`) as the new timestamp;
`pull` is symmetric, stamping the remote record's `updatedAt`. -/
theorem applier_push_pull_token_timestamp (cfg : Config) (st : SyncState) (a : SyncAction)
    (now : Nat) :
    (∀ h content, a.action = .push → a.hostFile = some h →
      st.host.getFileContent h.path = some content →
      (applySyncAction cfg st a now).trace =
        [StoreOp.hostRead h.path,
         StoreOp.remoteUpdate h.path content
           (match a.remoteFile with
            | some r => r.updatedAt
            | none => h.updatedAt)
           h.updatedAt])
    ∧ (∀ r content, a.action = .pull → a.remoteFile = some r →
      st.remote.getFileContent r.path = some content →
      (applySyncAction cfg st a now).trace =
        [StoreOp.remoteRead r.path,
         StoreOp.hostUpdate r.path content
           (match a.hostFile with
            | some h => h.updatedAt
            | none => r.updatedAt)
           r.updatedAt]) := by
  constructor
  · intro h content ha hhf hc
    rw [applySyncAction_eq_direct cfg st a now (by simp [ha])]
    cases hres : st.remote.update h.path content
        (match a.remoteFile with
         | some r => r.updatedAt
         | none => h.updatedAt) h.updatedAt <;>
      simp [applyDirect, ha, hhf, hc, hres]
  · intro r content ha hrf hc
    rw [applySyncAction_eq_direct cfg st a now (by simp [ha])]
    cases hres : st.host.update r.path content
        (match a.hostFile with
         | some h => h.updatedAt
         | none => r.updatedAt) r.updatedAt <;>
      simp [applyDirect, ha, hrf, hc, hres]

/-- C2 witness: a `push` against an existing remote record uses the remote's
`updatedAt` (70) as the token and the host's `updatedAt` (80) as the new
timestamp. -/
theorem applier_push_pull_token_timestamp_witness :
    (applySyncAction ⟨fun _ _ => false, fun _ _ n => ⟨n⟩, ⟨[], .latest, "", 0⟩⟩
        ⟨⟨[⟨"b.bin", 1, 1, 80, 0, false⟩], [("b.bin", "y")]⟩,
         ⟨[⟨"b.bin", 1, 1, 70, 0, false⟩], [("b.bin", "old")]⟩⟩
        ⟨some ⟨"b.bin", 1, 1, 80, 0, false⟩, some ⟨"b.bin", 1, 1, 70, 0, false⟩, .push⟩
        100).trace =
      [StoreOp.hostRead "b.bin", StoreOp.remoteUpdate "b.bin" "y" 70 80] :=
  (applier_push_pull_token_timestamp ⟨fun _ _ => false, fun _ _ n => ⟨n⟩, ⟨[], .latest, "", 0⟩⟩
    ⟨⟨[⟨"b.bin", 1, 1, 80, 0, false⟩], [("b.bin", "y")]⟩,
     ⟨[⟨"b.bin", 1, 1, 70, 0, false⟩], [("b.bin", "old")]⟩⟩
    ⟨some ⟨"b.bin", 1, 1, 80, 0, false⟩, some ⟨"b.bin", 1, 1, 70, 0, false⟩, .push⟩
    100).1 ⟨"b.bin", 1, 1, 80, 0, false⟩ "y" rfl rfl (by decide)

/-! ## Store-update lemmas for the idempotence analysis -/

lemma getFile_append {files l2 : List FileMetadata} {q : String} :
    getFile (files ++ l2) q =
      match getFile files q with
      | some f => some f
      | none => getFile l2 q := by
  induction files with
  | nil => simp [getFile]
  | cons g rest ih =>
    by_cases hg : g.path = q
    · simp [getFile, List.find?, hg]
    · have hg2 : (g.path == q) = false := by simpa using hg
      simp only [getFile, List.find?, List.cons_append, hg2] at ih ⊢
      exact ih

lemma getFile_cons_pos {g : FileMetadata} {files : List FileMetadata} {q : String}
    (h : g.path = q) : getFile (g :: files) q = some g := by
  unfold getFile
  exact List.find?_cons_of_pos _
    (show (fun file => file.path == q) g = true from by simpa using h)

lemma getFile_cons_neg {g : FileMetadata} {files : List FileMetadata} {q : String}
    (h : g.path ≠ q) : getFile (g :: files) q = getFile files q := by
  unfold getFile
  exact List.find?_cons_of_neg _
    (show ¬ (fun file => file.path == q) g = true from by simpa using h)

lemma getFile_map_modify_self {files : List FileMetadata} {p : String}
    {F : FileMetadata → FileMetadata} {f : FileMetadata}
    (hF : ∀ g, g.path = p → (F g).path = p)
    (h : getFile files p = some f) :
    getFile (files.map (fun g => if g.path == p then F g else g)) p = some (F f) := by
  induction files with
  | nil => simp [getFile] at h
  | cons g rest ih =>
    by_cases hg : g.path = p
    · have hgf : g = f := by
        rw [getFile_cons_pos hg] at h
        simpa using h
      simp only [List.map_cons, if_pos (show (g.path == p) = true from by simpa using hg)]
      rw [getFile_cons_pos (hF g hg), hgf]
    · have hrest : getFile rest p = some f := by
        rw [getFile_cons_neg hg] at h
        exact h
      simp only [List.map_cons, if_neg (show ¬(g.path == p) = true from by simpa using hg)]
      rw [getFile_cons_neg hg]
      exact ih hrest

lemma getFile_map_modify_other {files : List FileMetadata} {p q : String}
    {F : FileMetadata → FileMetadata}
    (hF : ∀ g, g.path = p → (F g).path = p)
    (hne : q ≠ p) :
    getFile (files.map (fun g => if g.path == p then F g else g)) q = getFile files q := by
  induction files with
  | nil => simp [getFile]
  | cons g rest ih =>
    by_cases hg : g.path = p
    · have hFq : (F g).path ≠ q := by
        rw [hF g hg]
        exact fun h2 => hne h2.symm
      have hgq : g.path ≠ q := by
        rw [hg]
        exact fun h2 => hne h2.symm
      simp only [List.map_cons, if_pos (show (g.path == p) = true from by simpa using hg)]
      rw [getFile_cons_neg hFq, getFile_cons_neg hgq]
      exact ih
    · simp only [List.map_cons, if_neg (show ¬(g.path == p) = true from by simpa using hg)]
      by_cases hgq : g.path = q
      · rw [getFile_cons_pos hgq, getFile_cons_pos hgq]
      · rw [getFile_cons_neg hgq, getFile_cons_neg hgq]
        exact ih

lemma paths_map_modify {files : List FileMetadata} {p : String}
    {F : FileMetadata → FileMetadata}
    (hF : ∀ g, g.path = p → (F g).path = p) :
    (files.map (fun g => if g.path == p then F g else g)).map (fun f => f.path) =
      files.map (fun f => f.path) := by
  induction files with
  | nil => rfl
  | cons g rest ih =>
    simp only [List.map_cons, ih]
    by_cases hg : g.path = p
    · rw [if_pos (by simpa using hg), hF g hg, hg]
    · rw [if_neg (by simpa using hg)]

lemma mem_map_modify {files : List FileMetadata} {p : String}
    {F : FileMetadata → FileMetadata} {f : FileMetadata}
    (h : f ∈ files.map (fun g => if g.path == p then F g else g)) :
    (∃ g ∈ files, g.path = p ∧ f = F g) ∨ (f ∈ files ∧ f.path ≠ p) := by
  rcases List.mem_map.mp h with ⟨g, hg, hfg⟩
  by_cases hgp : g.path = p
  · rw [if_pos (by simpa using hgp)] at hfg
    exact Or.inl ⟨g, hg, hgp, hfg.symm⟩
  · rw [if_neg (by simpa using hgp)] at hfg
    subst hfg
    exact Or.inr ⟨hg, hgp⟩

lemma lookup_setContent_self {contents : List (String × String)} {p c : String} :
    (Store.setContent contents p c).lookup p = some c := by
  simp [Store.setContent]

lemma lookup_filter_ne {contents : List (String × String)} {p q : String}
    (hne : q ≠ p) :
    (contents.filter (fun kv => kv.1 ≠ p)).lookup q = contents.lookup q := by
  induction contents with
  | nil => rfl
  | cons kv rest ih =>
    cases kv with
    | mk k v =>
      by_cases hk : k = p
      · rw [List.filter_cons_of_neg (by simp [hk])]
        rw [ih]
        have hqk : (q == k) = false := by
          simpa using fun h2 : q = k => hne (h2.trans hk)
        simp [List.lookup, hqk]
      · rw [List.filter_cons_of_pos (by simpa using hk)]
        cases hqk : (q == k) with
        | true => simp [List.lookup, hqk]
        | false => simpa [List.lookup, hqk] using ih

lemma lookup_setContent_other {contents : List (String × String)} {p q c : String}
    (hne : q ≠ p) :
    (Store.setContent contents p c).lookup q = contents.lookup q := by
  unfold Store.setContent
  simp only [List.lookup, show (q == p) = false from by simpa using hne]
  exact lookup_filter_ne hne

lemma any_path_of_getFile {files : List FileMetadata} {p : String} {f : FileMetadata}
    (h : getFile files p = some f) :
    (files.any (fun g => g.path == p)) = true :=
  List.any_eq_true.mpr ⟨f, getFile_mem h, by simp [getFile_path h]⟩

lemma any_path_of_getFile_none {files : List FileMetadata} {p : String}
    (h : getFile files p = none) :
    (files.any (fun g => g.path == p)) = false := by
  rw [List.any_eq_false]
  intro g hg
  simpa using getFile_eq_none_iff.mp h g hg

lemma upsertLive_self {files : List FileMetadata} {p : String} {sz nw : Nat} {f : FileMetadata}
    (h : getFile files p = some f) :
    getFile (Store.upsertLive files p sz nw) p =
      some { f with size := sz, updatedAt := nw, deleted := false } := by
  unfold Store.upsertLive
  rw [if_pos (any_path_of_getFile h)]
  exact getFile_map_modify_self (fun g hg => hg) h

lemma upsertLive_new {files : List FileMetadata} {p : String} {sz nw : Nat}
    (h : getFile files p = none) :
    getFile (Store.upsertLive files p sz nw) p = some ⟨p, sz, nw, nw, 0, false⟩ := by
  unfold Store.upsertLive
  rw [if_neg (by simp [any_path_of_getFile_none h])]
  rw [getFile_append, h]
  exact getFile_cons_pos rfl

lemma upsertLive_other {files : List FileMetadata} {p q : String} {sz nw : Nat}
    (hne : q ≠ p) :
    getFile (Store.upsertLive files p sz nw) q = getFile files q := by
  unfold Store.upsertLive
  split
  · exact getFile_map_modify_other (fun g hg => hg) hne
  · rw [getFile_append]
    cases hq : getFile files q with
    | some f => rfl
    | none =>
      rw [getFile_cons_neg (fun h2 => hne h2.symm)]
      simp [getFile]

lemma mem_upsertLive {files : List FileMetadata} {p : String} {sz nw : Nat} {f : FileMetadata}
    (h : f ∈ Store.upsertLive files p sz nw) :
    (f.path = p ∧ f.updatedAt = nw ∧ f.deleted = false) ∨ (f ∈ files ∧ f.path ≠ p) := by
  unfold Store.upsertLive at h
  split at h
  · rcases mem_map_modify h with ⟨g, _, hgp, hfg⟩ | ⟨hf, hfp⟩
    · subst hfg
      exact Or.inl ⟨hgp, rfl, rfl⟩
    · exact Or.inr ⟨hf, hfp⟩
  · rename_i hany
    rcases List.mem_append.mp h with hf | hf
    · refine Or.inr ⟨hf, ?_⟩
      intro hfp
      rw [Bool.not_eq_true, List.any_eq_false] at hany
      exact absurd hfp (by simpa using hany f hf)
    · simp at hf
      subst hf
      exact Or.inl ⟨rfl, rfl, rfl⟩

lemma pathsNodup_upsertLive {files : List FileMetadata} {p : String} {sz nw : Nat}
    (hnd : pathsNodup files) : pathsNodup (Store.upsertLive files p sz nw) := by
  unfold Store.upsertLive
  split
  · unfold pathsNodup
    have E : (List.map (fun g => if g.path == p then
          { g with size := sz, updatedAt := nw, deleted := false } else g) files).map
          (fun f => f.path) =
        files.map (fun f => f.path) := paths_map_modify (fun g hg => hg)
    unfold pathsNodup at hnd
    rw [E]
    exact hnd
  · rename_i hany
    unfold pathsNodup at hnd ⊢
    rw [List.map_append]
    simp only [List.map_cons, List.map_nil]
    rw [List.nodup_append]
    refine ⟨hnd, List.nodup_singleton _, ?_⟩
    intro x hx hx2
    simp at hx2
    subst hx2
    rw [Bool.not_eq_true, List.any_eq_false] at hany
    rcases List.mem_map.mp hx with ⟨g, hg, hgp⟩
    exact absurd hgp (by simpa using hany g hg)

lemma Store.update_ok {s : Store} {p c : String} {tok nw : Nat}
    (hmt : ¬(s.statMtime p ≠ 0 ∧ s.statMtime p ≠ tok)) :
    Store.update s p c tok nw =
      .ok ⟨Store.upsertLive s.files p c.length nw, Store.setContent s.contents p c⟩ := by
  unfold Store.update
  rw [if_neg hmt]

/-- Applying one well-formed `push`/`pull` action succeeds, settles its own
path, preserves all store invariants, and leaves every other path's records
untouched. -/
lemma apply_good_step (cfg : Config) (S : SyncState) (now : Nat) (q : String) (a : SyncAction)
    (hOK : stateOK S now) (hgood : goodKV S (q, a)) :
    (applySyncAction cfg S a now).error = none ∧
    stateOK (applySyncAction cfg S a now).state now ∧
    settled (applySyncAction cfg S a now).state q ∧
    (∀ p, p ≠ q →
      getFile (applySyncAction cfg S a now).state.host.files p = getFile S.host.files p ∧
      getFile (applySyncAction cfg S a now).state.remote.files p = getFile S.remote.files p) := by
  obtain ⟨hndH, hndR, hliveH, hliveR, hstampH, hstampR, hcontH, hcontR⟩ := hOK
  rcases hgood with ⟨h, hhf, hlookH, hrf, hact⟩ | ⟨r, hrf, hlookR, hhf, hact⟩
  · -- push: remote gets the host record's content and updatedAt
    dsimp only at hhf hlookH hrf hact
    have hpath : h.path = q := getFile_path hlookH
    have hmemh : h ∈ S.host.files := getFile_mem hlookH
    have hlive : h.deleted = false := hliveH h hmemh
    obtain ⟨c, hc⟩ := Option.isSome_iff_exists.mp (hcontH h hmemh hlive)
    have hstale : ¬(S.remote.statMtime h.path ≠ 0 ∧
        S.remote.statMtime h.path ≠ (match a.remoteFile with
          | some remoteFile => remoteFile.updatedAt
          | none => h.updatedAt)) := by
      cases hrlook : getFile S.remote.files q with
      | none =>
        unfold Store.statMtime
        rw [hpath, hrlook]
        simp
      | some r =>
        have hrlive : r.deleted = false := hliveR r (getFile_mem hrlook)
        unfold Store.statMtime
        rw [hpath, hrlook, hrf, hrlook]
        simp [hrlive]
    have happly : applySyncAction cfg S a now =
        ⟨⟨S.host, ⟨Store.upsertLive S.remote.files h.path c.length h.updatedAt,
           Store.setContent S.remote.contents h.path c⟩⟩,
         [.hostRead h.path,
          .remoteUpdate h.path c (match a.remoteFile with
            | some remoteFile => remoteFile.updatedAt
            | none => h.updatedAt) h.updatedAt],
         none⟩ := by
      rw [applySyncAction_eq_direct cfg S a now (by simp [hact])]
      unfold applyDirect
      simp only [hact, hhf, hc]
      rw [Store.update_ok hstale]
    rw [happly]
    refine ⟨rfl, ?_, ?_, ?_⟩
    · refine ⟨hndH, pathsNodup_upsertLive hndR, hliveH, ?_, hstampH, ?_, hcontH, ?_⟩
      · intro f hf
        rcases mem_upsertLive hf with ⟨_, _, hfl⟩ | ⟨hf2, _⟩
        · exact hfl
        · exact hliveR f hf2
      · intro f hf
        rcases mem_upsertLive hf with ⟨_, hfu, _⟩ | ⟨hf2, _⟩
        · rw [hfu]
          exact hstampH h hmemh
        · exact hstampR f hf2
      · intro f hf hfl
        rcases mem_upsertLive hf with ⟨hfp, _, _⟩ | ⟨hf2, hfp⟩
        · unfold Store.getFileContent
          simp only [hfp]
          rw [lookup_setContent_self]
          rfl
        · unfold Store.getFileContent
          simp only
          rw [lookup_setContent_other hfp]
          exact hcontR f hf2 hfl
    · unfold settled
      simp only
      rw [hlookH]
      cases hrlook : getFile S.remote.files q with
      | none =>
        have : getFile (Store.upsertLive S.remote.files h.path c.length h.updatedAt) q =
            some ⟨h.path, c.length, h.updatedAt, h.updatedAt, 0, false⟩ := by
          rw [hpath]
          exact upsertLive_new hrlook
        rw [this]
        exact ⟨hlive, rfl, rfl⟩
      | some r =>
        have : getFile (Store.upsertLive S.remote.files h.path c.length h.updatedAt) q =
            some { r with size := c.length, updatedAt := h.updatedAt, deleted := false } := by
          rw [hpath]
          exact upsertLive_self hrlook
        rw [this]
        exact ⟨hlive, rfl, rfl⟩
    · intro p hp
      refine ⟨rfl, ?_⟩
      simp only
      rw [hpath]
      exact upsertLive_other hp
  · -- pull: host gets the remote record's content and updatedAt
    dsimp only at hhf hlookR hrf hact
    have hpath : r.path = q := getFile_path hlookR
    have hmemr : r ∈ S.remote.files := getFile_mem hlookR
    have hlive : r.deleted = false := hliveR r hmemr
    obtain ⟨c, hc⟩ := Option.isSome_iff_exists.mp (hcontR r hmemr hlive)
    have hstale : ¬(S.host.statMtime r.path ≠ 0 ∧
        S.host.statMtime r.path ≠ (match a.hostFile with
          | some hostFile => hostFile.updatedAt
          | none => r.updatedAt)) := by
      cases hhlook : getFile S.host.files q with
      | none =>
        unfold Store.statMtime
        rw [hpath, hhlook]
        simp
      | some h =>
        have hhlive : h.deleted = false := hliveH h (getFile_mem hhlook)
        unfold Store.statMtime
        rw [hpath, hhlook, hhf, hhlook]
        simp [hhlive]
    have happly : applySyncAction cfg S a now =
        ⟨⟨⟨Store.upsertLive S.host.files r.path c.length r.updatedAt,
           Store.setContent S.host.contents r.path c⟩, S.remote⟩,
         [.remoteRead r.path,
          .hostUpdate r.path c (match a.hostFile with
            | some hostFile => hostFile.updatedAt
            | none => r.updatedAt) r.updatedAt],
         none⟩ := by
      rw [applySyncAction_eq_direct cfg S a now (by simp [hact])]
      unfold applyDirect
      simp only [hact, hrf, hc]
      rw [Store.update_ok hstale]
    rw [happly]
    refine ⟨rfl, ?_, ?_, ?_⟩
    · refine ⟨pathsNodup_upsertLive hndH, hndR, ?_, hliveR, ?_, hstampR, ?_, hcontR⟩
      · intro f hf
        rcases mem_upsertLive hf with ⟨_, _, hfl⟩ | ⟨hf2, _⟩
        · exact hfl
        · exact hliveH f hf2
      · intro f hf
        rcases mem_upsertLive hf with ⟨_, hfu, _⟩ | ⟨hf2, _⟩
        · rw [hfu]
          exact hstampR r hmemr
        · exact hstampH f hf2
      · intro f hf hfl
        rcases mem_upsertLive hf with ⟨hfp, _, _⟩ | ⟨hf2, hfp⟩
        · unfold Store.getFileContent
          simp only [hfp]
          rw [lookup_setContent_self]
          rfl
        · unfold Store.getFileContent
          simp only
          rw [lookup_setContent_other hfp]
          exact hcontH f hf2 hfl
    · unfold settled
      simp only
      rw [hlookR]
      cases hhlook : getFile S.host.files q with
      | none =>
        have : getFile (Store.upsertLive S.host.files r.path c.length r.updatedAt) q =
            some ⟨r.path, c.length, r.updatedAt, r.updatedAt, 0, false⟩ := by
          rw [hpath]
          exact upsertLive_new hhlook
        rw [this]
        exact ⟨rfl, hlive, rfl⟩
      | some h =>
        have : getFile (Store.upsertLive S.host.files r.path c.length r.updatedAt) q =
            some { h with size := c.length, updatedAt := r.updatedAt, deleted := false } := by
          rw [hpath]
          exact upsertLive_self hhlook
        rw [this]
        exact ⟨rfl, hlive, rfl⟩
    · intro p hp
      refine ⟨?_, rfl⟩
      simp only
      rw [hpath]
      exact upsertLive_other hp

/-- Running a list of well-formed, distinct-key `push`/`pull` actions
succeeds and leaves every path settled. -/
lemma runActions_good (cfg : Config) (now : Nat) :
    ∀ (kvs : ActMap) (S : SyncState),
      stateOK S now →
      (∀ kv ∈ kvs, goodKV S kv) →
      keysNodup kvs →
      (∀ q, lookupA kvs q = none → settled S q) →
      (runActions cfg S (kvs.map Prod.snd) now).error = none ∧
      stateOK (runActions cfg S (kvs.map Prod.snd) now).state now ∧
      (∀ q, settled (runActions cfg S (kvs.map Prod.snd) now).state q) := by
  intro kvs
  induction kvs with
  | nil =>
    intro S hOK _ _ hsettled
    simp only [List.map_nil, runActions]
    exact ⟨by simp, hOK, fun q => hsettled q rfl⟩
  | cons kv rest ih =>
    intro S hOK hgood hnd hsettled
    obtain ⟨herr, hOK2, hsetq, hpres⟩ :=
      apply_good_step cfg S now kv.1 kv.2 hOK (hgood kv (List.mem_cons_self _ _))
    have hheadkey : ∀ kv2 ∈ rest, kv2.1 ≠ kv.1 := by
      intro kv2 hkv2 heq
      unfold keysNodup at hnd
      rw [List.map_cons, List.nodup_cons] at hnd
      exact hnd.1 (heq ▸ List.mem_map.mpr ⟨kv2, hkv2, rfl⟩)
    have hrest := ih ((applySyncAction cfg S kv.2 now).state) hOK2
      (by
        intro kv2 hkv2
        have hq2 : kv2.1 ≠ kv.1 := hheadkey kv2 hkv2
        rcases hgood kv2 (List.mem_cons_of_mem _ hkv2) with
          ⟨h, hhf, hlook, hrf, hact⟩ | ⟨r, hrf, hlook, hhf, hact⟩
        · exact Or.inl ⟨h, hhf, by rw [(hpres kv2.1 hq2).1]; exact hlook,
            by rw [(hpres kv2.1 hq2).2]; exact hrf, hact⟩
        · exact Or.inr ⟨r, hrf, by rw [(hpres kv2.1 hq2).2]; exact hlook,
            by rw [(hpres kv2.1 hq2).1]; exact hhf, hact⟩)
      (by
        unfold keysNodup at hnd ⊢
        rw [List.map_cons, List.nodup_cons] at hnd
        exact hnd.2)
      (by
        intro q hq
        by_cases hqk : q = kv.1
        · subst hqk
          exact hsetq
        · have hnone : lookupA (kv :: rest) q = none := by
            cases kv with
            | mk k v =>
              simp only [lookupA]
              rw [if_neg (fun h2 => hqk h2.symm)]
              exact hq
          have hsetS := hsettled q hnone
          unfold settled at hsetS ⊢
          rw [(hpres q hqk).1, (hpres q hqk).2]
          exact hsetS)
    simp only [List.map_cons, runActions, herr]
    exact hrest

lemma foldl_no_fires {α : Type} {step : ActMap → α → ActMap} {c : α → Bool}
    {k : α → String} {v : α → SyncAction}
    (hstep : SetLike step c k v) {xs : List α} {m : ActMap}
    (hnf : ∀ x ∈ xs, c x = false) : xs.foldl step m = m := by
  induction xs generalizing m with
  | nil => rfl
  | cons x rest ih =>
    simp only [List.foldl_cons]
    rw [hstep, hnf x (List.mem_cons_self _ _)]
    simp only [Bool.false_eq_true, if_false]
    exact ih (fun y hy => hnf y (List.mem_cons_of_mem _ hy))

/-- On tombstone-free snapshots only passes 3 and 4 contribute, over the
full file lists. -/
lemma planMap_allLive (hostFiles remoteFiles : List FileMetadata) (w : Nat)
    (hH : allLive hostFiles) (hR : allLive remoteFiles) :
    planMap hostFiles remoteFiles w =
      remoteFiles.foldl (pass4Step hostFiles w)
        (hostFiles.foldl (pass3Step remoteFiles w) []) := by
  unfold planMap
  have h1 : remoteFiles.filter (fun file => file.deleted) = [] :=
    List.filter_eq_nil_iff.mpr (fun f hf => by simp [hR f hf])
  have h2 : hostFiles.filter (fun file => file.deleted) = [] :=
    List.filter_eq_nil_iff.mpr (fun f hf => by simp [hH f hf])
  have h3 : hostFiles.filter (fun file => !file.deleted) = hostFiles :=
    List.filter_eq_self.mpr (fun f hf => by simp [hH f hf])
  have h4 : remoteFiles.filter (fun file => !file.deleted) = remoteFiles :=
    List.filter_eq_self.mpr (fun f hf => by simp [hR f hf])
  rw [h1, h2, h3, h4]
  simp only [List.foldl_nil]

/-- On tombstone-free snapshots every planner entry is a well-formed push,
a well-formed pull, or a conflict. -/
lemma planMap_kv_good (S : SyncState) (w : Nat)
    (hndH : pathsNodup S.host.files) (hndR : pathsNodup S.remote.files)
    (hH : allLive S.host.files) (hR : allLive S.remote.files) :
    ∀ kv ∈ planMap S.host.files S.remote.files w,
      goodKV S kv ∨ kv.2.action = .conflict := by
  rw [planMap_allLive _ _ _ hH hR]
  apply foldl_mem_pred (pass4_setLike S.host.files w)
  · apply foldl_mem_pred (pass3_setLike S.remote.files w)
    · intro kv hkv
      cases hkv
    · intro f hf _
      unfold pass3Val
      cases hrlook : getFile S.remote.files f.path with
      | none =>
        exact Or.inl (Or.inl ⟨f, rfl, getFile_of_mem_nodup hndH hf, by rw [hrlook], rfl⟩)
      | some r =>
        dsimp only
        by_cases hlt : r.updatedAt < f.updatedAt
        · rw [if_pos hlt]
          exact Or.inl (Or.inl ⟨f, rfl, getFile_of_mem_nodup hndH hf, by rw [hrlook], rfl⟩)
        · rw [if_neg hlt]
          exact Or.inr rfl
  · intro rf hrf _
    unfold pass4Val
    cases hhlook : getFile S.host.files rf.path with
    | none =>
      exact Or.inl (Or.inr ⟨rf, rfl, getFile_of_mem_nodup hndR hrf, by rw [hhlook], rfl⟩)
    | some h =>
      dsimp only
      by_cases hlt : h.updatedAt < rf.updatedAt
      · rw [if_pos hlt]
        exact Or.inl (Or.inr ⟨rf, rfl, getFile_of_mem_nodup hndR hrf, by rw [hhlook], rfl⟩)
      · rw [if_neg hlt]
        exact Or.inr rfl

lemma planMap_keysNodup (hostFiles remoteFiles : List FileMetadata) (w : Nat) :
    keysNodup (planMap hostFiles remoteFiles w) := by
  unfold planMap
  apply foldl_keysNodup (pass4_setLike hostFiles w)
  apply foldl_keysNodup (pass3_setLike remoteFiles w)
  apply foldl_keysNodup (pass2_setLike remoteFiles)
  apply foldl_keysNodup (pass1_setLike hostFiles)
  unfold keysNodup
  simp

/-- A path the planner did not key is already settled (tombstone-free
snapshots). -/
lemma planMap_settled_of_no_key (S : SyncState) (w : Nat)
    (hndH : pathsNodup S.host.files) (hndR : pathsNodup S.remote.files)
    (hH : allLive S.host.files) (hR : allLive S.remote.files) :
    ∀ q, lookupA (planMap S.host.files S.remote.files w) q = none → settled S q := by
  intro q hq
  rw [planMap_allLive _ _ _ hH hR] at hq
  unfold settled
  cases hhlook : getFile S.host.files q with
  | none =>
    cases hrlook : getFile S.remote.files q with
    | none => trivial
    | some r =>
      exfalso
      have hrpath := getFile_path hrlook
      have hfire : pass4Fires S.host.files w r = true := by
        unfold pass4Fires
        rw [hrpath, hhlook]
      have hkey := foldl_hasKey_of_fires (pass4_setLike S.host.files w)
        (List.foldl (pass3Step S.remote.files w) [] S.host.files)
        (getFile_mem hrlook) hfire
      rw [hrpath, hq] at hkey
      simp at hkey
  | some h =>
    have hhpath := getFile_path hhlook
    cases hrlook : getFile S.remote.files q with
    | none =>
      exfalso
      have hfire : pass3Fires S.remote.files w h = true := by
        unfold pass3Fires
        rw [hhpath, hrlook]
      have hkey3 := foldl_hasKey_of_fires (pass3_setLike S.remote.files w) []
        (getFile_mem hhlook) hfire
      have hkey4 := foldl_lookup_isSome (pass4_setLike S.host.files w) S.remote.files hkey3
      rw [hhpath, hq] at hkey4
      simp at hkey4
    | some r =>
      have hrpath := getFile_path hrlook
      refine ⟨hH h (getFile_mem hhlook), hR r (getFile_mem hrlook), ?_⟩
      by_contra hne
      rcases Nat.lt_or_ge h.updatedAt r.updatedAt with hlt | hge
      · have hfire : pass4Fires S.host.files w r = true := by
          unfold pass4Fires
          rw [hrpath, hhlook]
          simp [hlt]
        have hkey := foldl_hasKey_of_fires (pass4_setLike S.host.files w)
          (List.foldl (pass3Step S.remote.files w) [] S.host.files)
          (getFile_mem hrlook) hfire
        rw [hrpath, hq] at hkey
        simp at hkey
      · have hlt2 : r.updatedAt < h.updatedAt :=
          lt_of_le_of_ne hge (fun e => hne e.symm)
        have hfire : pass3Fires S.remote.files w h = true := by
          unfold pass3Fires
          rw [hhpath, hrlook]
          simp [hlt2]
        have hkey3 := foldl_hasKey_of_fires (pass3_setLike S.remote.files w) []
          (getFile_mem hhlook) hfire
        have hkey4 := foldl_lookup_isSome (pass4_setLike S.host.files w) S.remote.files hkey3
        rw [hhpath, hq] at hkey4
        simp at hkey4

/-- A fully settled, tombstone-free state yields an empty plan at any
watermark at least every timestamp. -/
lemma plan_empty_of_settled (S : SyncState) (now : Nat)
    (hndH : pathsNodup S.host.files) (hndR : pathsNodup S.remote.files)
    (hH : allLive S.host.files) (hR : allLive S.remote.files)
    (hstR : stampedBy S.remote.files now) (hstH : stampedBy S.host.files now)
    (hsettled : ∀ q, settled S q) :
    createSyncAction S.host.files S.remote.files now = [] := by
  unfold createSyncAction
  rw [planMap_allLive _ _ _ hH hR]
  have hc3 : ∀ f ∈ S.host.files, pass3Fires S.remote.files now f = false := by
    intro f hf
    have hs := hsettled f.path
    unfold settled at hs
    rw [getFile_of_mem_nodup hndH hf] at hs
    cases hrlook : getFile S.remote.files f.path with
    | none => rw [hrlook] at hs; cases hs
    | some r =>
      rw [hrlook] at hs
      obtain ⟨_, _, hequ⟩ := hs
      unfold pass3Fires
      rw [hrlook]
      have h1 : ¬ r.updatedAt < f.updatedAt := by omega
      have h2 : ¬ r.updatedAt > now := not_lt.mpr (hstR r (getFile_mem hrlook))
      simp [h1, h2]
  have hc4 : ∀ rf ∈ S.remote.files, pass4Fires S.host.files now rf = false := by
    intro rf hrf
    have hs := hsettled rf.path
    unfold settled at hs
    rw [getFile_of_mem_nodup hndR hrf] at hs
    cases hhlook : getFile S.host.files rf.path with
    | none => rw [hhlook] at hs; cases hs
    | some h =>
      rw [hhlook] at hs
      obtain ⟨_, _, hequ⟩ := hs
      unfold pass4Fires
      rw [hhlook]
      have h1 : ¬ h.updatedAt < rf.updatedAt := by omega
      have h2 : ¬ h.updatedAt > now := not_lt.mpr (hstH h (getFile_mem hhlook))
      simp [h1, h2]
  rw [foldl_no_fires (pass4_setLike S.host.files now) hc4]
  rw [foldl_no_fires (pass3_setLike S.remote.files now) hc3]
  rfl

/-- C4, counterexample: a host tombstone (`deletedAt = 50`) against a live
remote record created earlier (`createdAt = 40`) plans a single `remove`;
applying it succeeds and leaves tombstones on both sides, so re-running
`plan` with the watermark advanced to the pass's `now = 100` emits a
`prune` action — not the empty set the claim requires. -/
theorem plan_apply_replan_cex :
    createSyncAction [⟨"x.txt", 0, 50, 50, 50, true⟩] [⟨"x.txt", 3, 40, 45, 0, false⟩] 0 =
      [⟨some ⟨"x.txt", 0, 50, 50, 50, true⟩, some ⟨"x.txt", 3, 40, 45, 0, false⟩, .remove⟩] ∧
    (runActions ⟨fun _ _ => false, fun _ _ n => ⟨n⟩, ⟨[], .latest, "", 0⟩⟩
        ⟨⟨[⟨"x.txt", 0, 50, 50, 50, true⟩], []⟩,
         ⟨[⟨"x.txt", 3, 40, 45, 0, false⟩], [("x.txt", "x")]⟩⟩
        (createSyncAction [⟨"x.txt", 0, 50, 50, 50, true⟩] [⟨"x.txt", 3, 40, 45, 0, false⟩] 0)
        100).error = none ∧
    createSyncAction
      (runActions ⟨fun _ _ => false, fun _ _ n => ⟨n⟩, ⟨[], .latest, "", 0⟩⟩
        ⟨⟨[⟨"x.txt", 0, 50, 50, 50, true⟩], []⟩,
         ⟨[⟨"x.txt", 3, 40, 45, 0, false⟩], [("x.txt", "x")]⟩⟩
        (createSyncAction [⟨"x.txt", 0, 50, 50, 50, true⟩] [⟨"x.txt", 3, 40, 45, 0, false⟩] 0)
        100).state.host.files
      (runActions ⟨fun _ _ => false, fun _ _ n => ⟨n⟩, ⟨[], .latest, "", 0⟩⟩
        ⟨⟨[⟨"x.txt", 0, 50, 50, 50, true⟩], []⟩,
         ⟨[⟨"x.txt", 3, 40, 45, 0, false⟩], [("x.txt", "x")]⟩⟩
        (createSyncAction [⟨"x.txt", 0, 50, 50, 50, true⟩] [⟨"x.txt", 3, 40, 45, 0, false⟩] 0)
        100).state.remote.files
      100 =
      [⟨some ⟨"x.txt", 0, 100, 100, 100, true⟩, some ⟨"x.txt", 0, 100, 100, 100, true⟩, .prune⟩] ∧
    createSyncAction
      (runActions ⟨fun _ _ => false, fun _ _ n => ⟨n⟩, ⟨[], .latest, "", 0⟩⟩
        ⟨⟨[⟨"x.txt", 0, 50, 50, 50, true⟩], []⟩,
         ⟨[⟨"x.txt", 3, 40, 45, 0, false⟩], [("x.txt", "x")]⟩⟩
        (createSyncAction [⟨"x.txt", 0, 50, 50, 50, true⟩] [⟨"x.txt", 3, 40, 45, 0, false⟩] 0)
        100).state.host.files
      (runActions ⟨fun _ _ => false, fun _ _ n => ⟨n⟩, ⟨[], .latest, "", 0⟩⟩
        ⟨⟨[⟨"x.txt", 0, 50, 50, 50, true⟩], []⟩,
         ⟨[⟨"x.txt", 3, 40, 45, 0, false⟩], [("x.txt", "x")]⟩⟩
        (createSyncAction [⟨"x.txt", 0, 50, 50, 50, true⟩] [⟨"x.txt", 3, 40, 45, 0, false⟩] 0)
        100).state.remote.files
      100 ≠ [] := by
  refine ⟨by decide, by decide, by decide, by decide⟩

/-- C4 (amended): on tombstone-free input snapshots (unique paths, all
timestamps at most `now`, every live record readable) whose plan contains no
`conflict` action, applying every action produced by
`plan(host, remote, w)` succeeds, and re-running `plan` on the post-state
with the watermark advanced to the pass's `now` yields an empty action set.
(With tombstones a `remove` leaves matching tombstones behind and the next
pass plans a `prune`; an `ignore`-resolved conflict is re-planned as a
`pull` — see the counterexample.) -/
theorem plan_apply_replan_empty (cfg : Config) (host remote : Store) (w now : Nat)
    (hndH : pathsNodup host.files) (hndR : pathsNodup remote.files)
    (hH : allLive host.files) (hR : allLive remote.files)
    (hstH : stampedBy host.files now) (hstR : stampedBy remote.files now)
    (hcontH : contentsComplete host) (hcontR : contentsComplete remote)
    (hNoConf : ∀ a ∈ createSyncAction host.files remote.files w, a.action ≠ .conflict) :
    (runActions cfg ⟨host, remote⟩ (createSyncAction host.files remote.files w) now).error =
      none ∧
    createSyncAction
      (runActions cfg ⟨host, remote⟩
        (createSyncAction host.files remote.files w) now).state.host.files
      (runActions cfg ⟨host, remote⟩
        (createSyncAction host.files remote.files w) now).state.remote.files
      now = [] := by
  have hS0 : stateOK ⟨host, remote⟩ now := ⟨hndH, hndR, hH, hR, hstH, hstR, hcontH, hcontR⟩
  have hgood : ∀ kv ∈ planMap host.files remote.files w, goodKV ⟨host, remote⟩ kv := by
    intro kv hkv
    rcases planMap_kv_good ⟨host, remote⟩ w hndH hndR hH hR kv hkv with hg | hconf
    · exact hg
    · refine absurd hconf (hNoConf kv.2 ?_)
      exact mem_values.mpr ⟨kv.1, hkv⟩
  have hrun := runActions_good cfg now (planMap host.files remote.files w) ⟨host, remote⟩
    hS0 hgood (planMap_keysNodup host.files remote.files w)
    (planMap_settled_of_no_key ⟨host, remote⟩ w hndH hndR hH hR)
  refine ⟨hrun.1, ?_⟩
  obtain ⟨fndH, fndR, fH, fR, fstH, fstR, _, _⟩ := hrun.2.1
  exact plan_empty_of_settled _ now fndH fndR fH fR fstR fstH hrun.2.2

/-- C4 witness: a single host-only live file is pushed and the next plan is
empty. -/
theorem plan_apply_replan_empty_witness :
    (runActions ⟨fun _ _ => false, fun _ _ n => ⟨n⟩, ⟨[], .latest, "", 0⟩⟩
        ⟨⟨[⟨"a.md", 1, 5, 10, 0, false⟩], [("a.md", "hi")]⟩, ⟨[], []⟩⟩
        (createSyncAction [⟨"a.md", 1, 5, 10, 0, false⟩] [] 0) 100).error = none ∧
    createSyncAction
      (runActions ⟨fun _ _ => false, fun _ _ n => ⟨n⟩, ⟨[], .latest, "", 0⟩⟩
        ⟨⟨[⟨"a.md", 1, 5, 10, 0, false⟩], [("a.md", "hi")]⟩, ⟨[], []⟩⟩
        (createSyncAction [⟨"a.md", 1, 5, 10, 0, false⟩] [] 0) 100).state.host.files
      (runActions ⟨fun _ _ => false, fun _ _ n => ⟨n⟩, ⟨[], .latest, "", 0⟩⟩
        ⟨⟨[⟨"a.md", 1, 5, 10, 0, false⟩], [("a.md", "hi")]⟩, ⟨[], []⟩⟩
        (createSyncAction [⟨"a.md", 1, 5, 10, 0, false⟩] [] 0) 100).state.remote.files
      100 = [] :=
  plan_apply_replan_empty ⟨fun _ _ => false, fun _ _ n => ⟨n⟩, ⟨[], .latest, "", 0⟩⟩
    ⟨[⟨"a.md", 1, 5, 10, 0, false⟩], [("a.md", "hi")]⟩ ⟨[], []⟩ 0 100
    (by unfold pathsNodup; decide) (by unfold pathsNodup; decide)
    (by unfold allLive; decide) (by unfold allLive; decide)
    (by unfold stampedBy; decide) (by unfold stampedBy; decide)
    (by unfold contentsComplete; decide) (by unfold contentsComplete; decide)
    (by decide)

end PaintressSync
